import Mathlib

/-!
Verification development for the poroshell `lcu_schema` crate
(`src/crates/schema/src/{patch,lib,openapi,help,error}.rs`).

The development shallowly embeds the data model and the operations of the
schema compiler:

* `Json` models `serde_json::Value`.  Objects are association lists in
  insertion order; numbers are modelled as integers (no claim touches
  floating point payloads).
* The path language (`DotToken`, `tokenize`, `parse_token`) mirrors
  `patch.rs`.  Rust functions that can panic are modelled with an outer
  `Option` layer (`none` = panic); fallible functions return `Except`.
* `navigate` / `patch_mut` model the `Patch` impl for `Value`; the
  in-place mutation of `patch_mut` is modelled by returning the updated
  document.
* The OpenAPI document model and the resolvers (`openapi.rs`, `lib.rs`)
  are embedded with hash maps modelled as association lists.
-/

/-- `serde_json::Value`: JSON trees.  Numbers are restricted to integers
(the claims under study never involve float payloads); object fields are
kept in insertion order. -/
inductive Json where
  | null : Json
  | bool (b : Bool) : Json
  | num (n : Int) : Json
  | str (s : String) : Json
  | arr (elems : List Json) : Json
  | obj (fields : List (String × Json)) : Json

namespace Json

/-- `Map::get`: first binding of a key in an association list. -/
def lookupAL (fields : List (String × Json)) (k : String) : Option Json :=
  match fields with
  | [] => none
  | (k', v) :: rest => if k' = k then some v else lookupAL rest k

/-- `Map::contains_key`. -/
def containsAL (fields : List (String × Json)) (k : String) : Bool :=
  match fields with
  | [] => false
  | (k', _) :: rest => if k' = k then true else containsAL rest k

/-- `Map::insert`: replace the binding in place if the key is present,
otherwise append the new binding. -/
def insertAL (fields : List (String × Json)) (k : String) (v : Json) :
    List (String × Json) :=
  match fields with
  | [] => [(k, v)]
  | (k', v') :: rest =>
      if k' = k then (k, v) :: rest else (k', v') :: insertAL rest k v

/-- `Map::remove`: drop the binding of a key. -/
def removeAL (fields : List (String × Json)) (k : String) :
    List (String × Json) :=
  fields.filter (fun kv => !(kv.1 == k))

end Json

/-- `Wildcard` from `patch.rs`. -/
inductive Wildcard where
  | once : Wildcard
  | untilNext : Wildcard
  deriving DecidableEq

/-- `DotToken` from `patch.rs`. -/
inductive DotToken where
  | property (name : String) : DotToken
  | index (i : Nat) : DotToken
  | wildcard (w : Wildcard) : DotToken
  deriving DecidableEq

/-- `SyntaxError` from `error.rs` (sole variant). -/
inductive SyntaxErr where
  | wildcardInUnion : SyntaxErr
  deriving DecidableEq

/-- `ParseError` from `error.rs`.  `io`/`fmt` wrappers are omitted (they are
unreachable from the embedded functions); `json` carries the message of a
`serde_json::Error::custom` with the interpolated values elided. -/
inductive ParseErr where
  | json (msg : String) : ParseErr
  | patchSyntax (e : SyntaxErr) : ParseErr
  | cannotParseEmptyStringIntoType : ParseErr
  | consoleEndpointResponseShouldBeObject : ParseErr
  | endpointPathCannotBeNone : ParseErr
  | formatIsNotAnInteger : ParseErr
  | formatIsNotANumber : ParseErr
  | invalidData : ParseErr
  | privateApiTypeNotSupported : ParseErr
  | unknownHttpMethod : ParseErr
  | objectTypesShouldBeParsed : ParseErr
  | vectorTypesShouldBeParsed : ParseErr
  deriving DecidableEq

/-- Rust `str::starts_with` (on the character list, which matches the
byte-wise behaviour on the inputs in play). -/
def starts_with (s pre : String) : Bool :=
  pre.data.isPrefixOf s.data

/-- Rust `str::ends_with`. -/
def ends_with (s suf : String) : Bool :=
  suf.data.isSuffixOf s.data

/-- Split a character list on a separator character
(Rust `str::split(c)` / `String::splitOn`). -/
def splitCharList (cs : List Char) (sep : Char) : List (List Char) :=
  match cs with
  | [] => [[]]
  | c :: rest =>
      if c = sep then [] :: splitCharList rest sep
      else
        match splitCharList rest sep with
        | [] => [[c]]
        | g :: gs => (c :: g) :: gs

/-- Rust `str::split(c)` collected to strings. -/
def split_on_char (s : String) (sep : Char) : List String :=
  (splitCharList s.data sep).map String.mk

/-- Decimal value of a digit list. -/
def natOfDigits (cs : List Char) : Nat :=
  cs.foldl (fun n c => n * 10 + (c.toNat - 48)) 0

/-- The digit part of a candidate `usize` literal: Rust
`str::parse::<usize>` accepts one optional leading `+`. -/
def usizeDigits (s : String) : List Char :=
  match s.data with
  | c :: rest => if c = '+' then rest else c :: rest
  | [] => []

/-- Is a string a valid `usize` literal for Rust `str::parse::<usize>`:
an optional leading `+` followed by one or more ASCII digits, value within
the 64-bit range. -/
def isUsizeLit (s : String) : Bool :=
  let t := usizeDigits s
  !t.isEmpty && t.all Char.isDigit && decide (natOfDigits t < 2 ^ 64)

/-- Numeric value of a `usize` literal (callers guard with `isUsizeLit`). -/
def usizeVal (s : String) : Nat :=
  natOfDigits (usizeDigits s)

/-- `parse_quoted_property`: a segment wrapped in double quotes becomes a
literal property.  Rust slices `segment[1 .. len-1]`, which panics when the
segment is the single character `"` (start index 1 exceeds end index 0);
the panic is modelled by `none` in the middle layer of `parse_token`. -/
def parse_quoted_property (segment : String) : Option DotToken :=
  if starts_with segment "\"" && ends_with segment "\"" then
    some (DotToken.property (String.mk segment.data.tail.dropLast))
  else
    none

/-- `parse_wild_once_or_until_next`. -/
def parse_wild_once_or_until_next (token : String) : Option DotToken :=
  if token = "**" then some (DotToken.wildcard Wildcard.untilNext)
  else if token = "*" then some (DotToken.wildcard Wildcard.once)
  else none

/-- `parse_token` from `patch.rs`.  Outer `Option`: `none` models the slice
panic on the segment `"` (a single double-quote character); the `Except`
layer mirrors the Rust `Result<_, SyntaxError>` signature, whose error is
never constructed (the union branch is commented out in the source). -/
def parse_token (token : String) : Option (Except SyntaxErr DotToken) :=
  if starts_with token "\"" && ends_with token "\"" then
    if token.data.length = 1 then none
    else some (Except.ok (DotToken.property (String.mk token.data.tail.dropLast)))
  else
    match parse_wild_once_or_until_next token with
    | some w => some (Except.ok w)
    | none =>
        if isUsizeLit token then some (Except.ok (DotToken.index (usizeVal token)))
        else some (Except.ok (DotToken.property token))

/-- `DotPathStr::tokenize`: split on `.` and parse every segment.  The outer
`Option` is `none` when any segment panics in `parse_token`. -/
def tokenize (s : String) : Option (Except SyntaxErr (List DotToken)) :=
  go (split_on_char s '.')
where
  /-- Sequence the per-segment results the way `collect::<Result<Vec<_>,_>>`
  does (first error wins; a panic aborts everything). -/
  go : List String → Option (Except SyntaxErr (List DotToken))
  | [] => some (Except.ok [])
  | seg :: rest =>
      match parse_token seg with
      | none => none
      | some (Except.error e) => some (Except.error e)
      | some (Except.ok t) =>
          match go rest with
          | none => none
          | some (Except.error e) => some (Except.error e)
          | some (Except.ok ts) => some (Except.ok (t :: ts))

/-- Total variant of `parse_token` used for the wildcard sub-path
re-tokenisation inside `navigate`/`patch_mut`.  It agrees with
`parse_token` on every segment except the panicking single-quote segment
(which no claim exercises): there it falls through to a plain property. -/
def parse_tokenT (token : String) : DotToken :=
  if starts_with token "\"" && ends_with token "\"" &&
      decide (2 ≤ token.data.length) then
    DotToken.property (String.mk token.data.tail.dropLast)
  else
    match parse_wild_once_or_until_next token with
    | some w => w
    | none =>
        if isUsizeLit token then DotToken.index (usizeVal token)
        else DotToken.property token

/-- Total tokenizer (see `parse_tokenT`). -/
def tokenizeT (s : String) : List DotToken :=
  (split_on_char s '.').map parse_tokenT

/-- `Display` of a single token. -/
def dispToken : DotToken → String
  | DotToken.property name => name
  | DotToken.index i => toString i
  | DotToken.wildcard Wildcard.once => "*"
  | DotToken.wildcard Wildcard.untilNext => "**"

/-- `Itertools::join(".")` over tokens, as used to build wildcard
sub-paths. -/
def joinToks (toks : List DotToken) : String :=
  String.intercalate "." (toks.map dispToken)

/-- The `tokens.clone().join(".")` / `DotPathStr(..)` round trip performed
inside the wildcard arms: display the remaining tokens and re-tokenize. -/
def retok (toks : List DotToken) : List DotToken :=
  tokenizeT (joinToks toks)

/-! ### Size lemmas for termination -/

theorem Json.sizeOf_lookupAL {fields : List (String × Json)} {k : String}
    {v : Json} (h : Json.lookupAL fields k = some v) : sizeOf v < sizeOf fields := by
  induction fields with
  | nil => simp [Json.lookupAL] at h
  | cons kv rest ih =>
      obtain ⟨k', v'⟩ := kv
      by_cases hk : k' = k
      · simp [Json.lookupAL, hk] at h
        subst h
        simp
        omega
      · simp [Json.lookupAL, hk] at h
        have := ih h
        simp
        omega

theorem Json.sizeOf_get? {elems : List Json} {i : Nat} {v : Json}
    (h : elems.get? i = some v) : sizeOf v < sizeOf elems := by
  induction elems generalizing i with
  | nil => simp at h
  | cons x rest ih =>
      cases i with
      | zero =>
          simp at h
          subst h
          simp
          omega
      | succ n =>
          simp at h
          have := ih (i := n) (by simpa using h)
          simp
          omega

theorem Json.sizeOf_fields_lt (fields : List (String × Json)) :
    sizeOf fields < sizeOf (Json.obj fields) := by
  simp


/-! ### `traverse_until_next_helper` (patch.rs, recursive `**` search)

The Rust function takes the token iterator positioned AT the literal token
that follows the `**` wildcard (`next_token` is a copy of its head).  When
a key/index matches, the iterator is advanced (`tokens.next()`), so the
subsequent unconditional loop over all children continues with the
advanced iterator; without a match the children are searched with the
unadvanced iterator.  Errors are never constructed (the Rust `Result` is
always `Ok`), so the model returns a plain list. -/

/-- The `next_token` probe of the helper on an object: a `Property` looks
itself up, an `Index` looks up its decimal string, wildcards match
nothing. -/
def tunLookup (fields : List (String × Json)) (nt : DotToken) : Option Json :=
  match nt with
  | DotToken.property p => Json.lookupAL fields p
  | DotToken.index i => Json.lookupAL fields (toString i)
  | _ => none

/-- The `next_token.as_index()` probe of the helper on an array. -/
def tunIndex (elems : List Json) (nt : DotToken) : Option Json :=
  match nt with
  | DotToken.index i => elems.get? i
  | _ => none

theorem sizeOf_tunLookup {fields : List (String × Json)} {nt : DotToken}
    {v : Json} (h : tunLookup fields nt = some v) :
    sizeOf v < sizeOf (Json.obj fields) := by
  have hlt : sizeOf v < sizeOf fields := by
    cases nt with
    | property p => exact Json.sizeOf_lookupAL (by simpa [tunLookup] using h)
    | index i => exact Json.sizeOf_lookupAL (by simpa [tunLookup] using h)
    | wildcard w => simp [tunLookup] at h
  simp
  omega

theorem sizeOf_tunIndex {elems : List Json} {nt : DotToken} {v : Json}
    (h : tunIndex elems nt = some v) : sizeOf v < sizeOf (Json.arr elems) := by
  have hlt : sizeOf v < sizeOf elems := by
    cases nt with
    | property p => simp [tunIndex] at h
    | index i => exact Json.sizeOf_get? (by simpa [tunIndex] using h)
    | wildcard w => simp [tunIndex] at h
  simp
  omega

mutual

def traverse_until_next_helper (d : Json) (nt : DotToken) (toks : List DotToken) :
    List Json :=
  match d with
  | Json.obj fields =>
      (match hv : tunLookup fields nt with
       | some v =>
           (if toks.drop 1 = [] then [v]
            else traverse_until_next_helper v nt (toks.drop 1)) ++
             tunFields fields nt (toks.drop 1)
       | none => tunFields fields nt toks)
  | Json.arr elems =>
      (match hv : tunIndex elems nt with
       | some v =>
           (if toks.drop 1 = [] then [v]
            else traverse_until_next_helper v nt (toks.drop 1)) ++
             tunElems elems nt (toks.drop 1)
       | none => tunElems elems nt toks)
  | _ => []
termination_by sizeOf d
decreasing_by
  all_goals simp_wf
  all_goals
    first
      | (have hlt := sizeOf_tunLookup hv; simp at hlt; omega)
      | (have hlt := sizeOf_tunIndex hv; simp at hlt; omega)
      | omega
      | (simp; omega)

/-- The unconditional `for v in obj.values()` recursion of the helper. -/
def tunFields (fields : List (String × Json)) (nt : DotToken)
    (toks : List DotToken) : List Json :=
  match fields with
  | [] => []
  | (k, v) :: rest =>
      traverse_until_next_helper v nt toks ++ tunFields rest nt toks
termination_by sizeOf fields
decreasing_by
  all_goals simp_wf
  all_goals omega

/-- The unconditional `for v in arr.iter()` recursion of the helper. -/
def tunElems (elems : List Json) (nt : DotToken) (toks : List DotToken) :
    List Json :=
  match elems with
  | [] => []
  | v :: rest => traverse_until_next_helper v nt toks ++ tunElems rest nt toks
termination_by sizeOf elems
decreasing_by
  all_goals simp_wf
  all_goals omega

end

/-! ### `navigate` (patch.rs)

Models the `while let Some(token) = tokens.next()` loop of
`Value::navigate`.  The loop state is the current node `d` and the
remaining tokens; every iteration may contribute results, so the model
returns the contributions from the current point onwards.  Faithfully kept
quirks of the source:

* a missing property/index or a container mismatch with `in_wild = true`
  executes `continue`, which skips the TOKEN and retries the next token at
  the same node (it does not abandon the branch);
* the two wildcard arms do not `return`, so after the fan-out the loop
  keeps consuming the remaining tokens at the same node;
* the `Wildcard::Once` fan-out ignores the error of each child
  (`if let Ok(..)`), while the trailing-`**` fan-out propagates them;
* sub-paths are rebuilt by joining the remaining tokens with `.` and
  re-tokenizing (`retok`). -/

mutual

def navigate (d : Json) (toks : List DotToken) (in_wild : Bool) :
    Except ParseErr (List Json) :=
  match toks with
  | [] => Except.ok []
  | t :: rest =>
      match t with
      | DotToken.property prop =>
          match d with
          | Json.obj fields =>
              match hl : Json.lookupAL fields prop with
              | some next =>
                  if rest = [] then Except.ok [next]
                  else navigate next rest in_wild
              | none =>
                  if in_wild then navigate (Json.obj fields) rest in_wild
                  else Except.error (ParseErr.json "property not found in path")
          | other =>
              if in_wild then navigate other rest in_wild
              else Except.error (ParseErr.json "expected an object at path")
      | DotToken.index i =>
          match d with
          | Json.arr elems =>
              match hg : elems.get? i with
              | some next =>
                  if rest = [] then Except.ok [next]
                  else navigate next rest in_wild
              | none =>
                  if in_wild then navigate (Json.arr elems) rest in_wild
                  else Except.error (ParseErr.json "index not found at path")
          | other =>
              if in_wild then navigate other rest in_wild
              else Except.error (ParseErr.json "expected an array at path")
      | DotToken.wildcard w =>
          match w, d with
          | Wildcard.once, Json.obj fields =>
              (navigate (Json.obj fields) rest in_wild).map
                (fun later => navCollectFields fields (retok rest) ++ later)
          | Wildcard.once, Json.arr elems =>
              (navigate (Json.arr elems) rest in_wild).map
                (fun later => navCollectElems elems (retok rest) ++ later)
          | Wildcard.untilNext, Json.obj fields =>
              (match rest with
               | nt :: tl =>
                   (navigate (Json.obj fields) (nt :: tl) in_wild).map
                     (fun later =>
                       traverse_until_next_helper (Json.obj fields) nt (nt :: tl)
                         ++ later)
               | [] =>
                   (navSeqFields fields (retok [])).bind
                     (fun collected =>
                       (navigate (Json.obj fields) [] in_wild).map
                         (fun later => collected ++ later)))
          | Wildcard.untilNext, Json.arr elems =>
              (match rest with
               | nt :: tl =>
                   (navigate (Json.arr elems) (nt :: tl) in_wild).map
                     (fun later =>
                       traverse_until_next_helper (Json.arr elems) nt (nt :: tl)
                         ++ later)
               | [] =>
                   (navSeqElems elems (retok [])).bind
                     (fun collected =>
                       (navigate (Json.arr elems) [] in_wild).map
                         (fun later => collected ++ later)))
          | _, _ =>
              Except.error
                (ParseErr.json "wildcard expected an object or array at path")
termination_by (sizeOf d, toks.length)
decreasing_by
  all_goals simp_wf
  all_goals
    first
      | (apply Prod.Lex.right; omega)
      | (apply Prod.Lex.left; have hlt := Json.sizeOf_lookupAL hl; omega)
      | (apply Prod.Lex.left; have hlt := Json.sizeOf_get? hg; omega)
      | (apply Prod.Lex.left; omega)
      | (apply Prod.Lex.left; simp; omega)

/-- `Wildcard::Once` fan-out over an object: navigate each child with the
re-tokenized suffix, `in_wild = true`, dropping per-child errors. -/
def navCollectFields (fields : List (String × Json)) (sub : List DotToken) :
    List Json :=
  match fields with
  | [] => []
  | (_, v) :: rest =>
      ((navigate v sub true).toOption.getD []) ++ navCollectFields rest sub
termination_by (sizeOf fields, 0)
decreasing_by
  all_goals simp_wf
  all_goals (apply Prod.Lex.left; first | omega | (simp; omega))

/-- `Wildcard::Once` fan-out over an array. -/
def navCollectElems (elems : List Json) (sub : List DotToken) : List Json :=
  match elems with
  | [] => []
  | v :: rest =>
      ((navigate v sub true).toOption.getD []) ++ navCollectElems rest sub
termination_by (sizeOf elems, 0)
decreasing_by
  all_goals simp_wf
  all_goals (apply Prod.Lex.left; first | omega | (simp; omega))

/-- Trailing-`**` fan-out over an object (`traverse_until_next` with no
next token): navigate each child with the empty re-tokenized sub-path,
propagating errors. -/
def navSeqFields (fields : List (String × Json)) (sub : List DotToken) :
    Except ParseErr (List Json) :=
  match fields with
  | [] => Except.ok []
  | (_, v) :: rest =>
      (navigate v sub true).bind
        (fun r => (navSeqFields rest sub).map (fun rs => r ++ rs))
termination_by (sizeOf fields, 0)
decreasing_by
  all_goals simp_wf
  all_goals (apply Prod.Lex.left; first | omega | (simp; omega))

/-- Trailing-`**` fan-out over an array. -/
def navSeqElems (elems : List Json) (sub : List DotToken) :
    Except ParseErr (List Json) :=
  match elems with
  | [] => Except.ok []
  | v :: rest =>
      (navigate v sub true).bind
        (fun r => (navSeqElems rest sub).map (fun rs => r ++ rs))
termination_by (sizeOf elems, 0)
decreasing_by
  all_goals simp_wf
  all_goals (apply Prod.Lex.left; first | omega | (simp; omega))

end

/-! ### `patch_mut` (patch.rs)

Models `Value::patch_mut`; the in-place mutation is modelled by returning
the updated document (`Except.ok`).  On an error the Rust original may
leave earlier in-place mutations behind; the model discards them, which is
irrelevant for the success-result and error-occurrence properties proved
below.  Faithfully kept behaviour:

* a missing intermediate property is auto-created as an empty object and
  descent continues into it;
* at the terminal token, `some v` sets/replaces (an out-of-range terminal
  index first resizes with `null` fill), `none` removes (array removal
  shifts later elements down; an out-of-range removal is a no-op);
* both wildcard kinds fan out exactly one level to every child with the
  re-tokenized suffix and return immediately afterwards (`return Ok(())`),
  propagating the first child error;
* an empty token list is the `no terminal target` error. -/

mutual

def patch_mut (d : Json) (toks : List DotToken) (value : Option Json) :
    Except ParseErr Json :=
  match toks with
  | [] =>
      Except.error (ParseErr.json "failed to patch value at path: no terminal target")
  | t :: rest =>
      match t with
      | DotToken.property prop =>
          match d with
          | Json.obj fields =>
              if rest = [] then
                match value with
                | some v => Except.ok (Json.obj (Json.insertAL fields prop v))
                | none => Except.ok (Json.obj (Json.removeAL fields prop))
              else
                match hl : Json.lookupAL fields prop with
                | some c =>
                    (patch_mut c rest value).map
                      (fun c' => Json.obj (Json.insertAL fields prop c'))
                | none =>
                    (patch_mut (Json.obj []) rest value).map
                      (fun c' =>
                        Json.obj
                          (Json.insertAL (fields ++ [(prop, Json.obj [])]) prop c'))
          | _ => Except.error (ParseErr.json "expected an object at path")
      | DotToken.index i =>
          match d with
          | Json.arr elems =>
              if rest = [] then
                match value with
                | some v =>
                    let arr1 :=
                      if elems.length ≤ i then
                        elems ++ List.replicate (i + 1 - elems.length) Json.null
                      else elems
                    Except.ok (Json.arr (arr1.set i v))
                | none =>
                    Except.ok
                      (Json.arr (if i < elems.length then elems.eraseIdx i else elems))
              else
                match hg : elems.get? i with
                | some c =>
                    (patch_mut c rest value).map
                      (fun c' => Json.arr (elems.set i c'))
                | none => Except.error (ParseErr.json "index not found at path")
          | _ => Except.error (ParseErr.json "expected an array at path")
      | DotToken.wildcard w =>
          match d with
          | Json.obj fields => (patch_fields fields (retok rest) value).map Json.obj
          | Json.arr elems => (patch_elems elems (retok rest) value).map Json.arr
          | _ =>
              Except.error
                (ParseErr.json "wildcard expected an object or array at path")
termination_by (sizeOf d, toks.length)
decreasing_by
  all_goals simp_wf
  all_goals
    first
      | (apply Prod.Lex.right; omega)
      | (apply Prod.Lex.left; have hlt := Json.sizeOf_lookupAL hl; omega)
      | (apply Prod.Lex.left; have hlt := Json.sizeOf_get? hg; omega)
      | (apply Prod.Lex.left; omega)
      | (apply Prod.Lex.left; simp; omega)
      | (rcases fields with _ | ⟨⟨k1, v1⟩, fs⟩
         · apply Prod.Lex.right; omega
         · apply Prod.Lex.left; simp; omega)

/-- `for v in obj.values_mut() { v.patch_mut(sub_path, value.clone())? }`. -/
def patch_fields (fields : List (String × Json)) (toks : List DotToken)
    (value : Option Json) : Except ParseErr (List (String × Json)) :=
  match fields with
  | [] => Except.ok []
  | (k, v) :: rest =>
      (patch_mut v toks value).bind
        (fun v' => (patch_fields rest toks value).map (fun rest' => (k, v') :: rest'))
termination_by (sizeOf fields, 0)
decreasing_by
  all_goals simp_wf
  all_goals (apply Prod.Lex.left; first | omega | (simp; omega))

/-- `for v in arr.iter_mut() { v.patch_mut(sub_path, value.clone())? }`. -/
def patch_elems (elems : List Json) (toks : List DotToken) (value : Option Json) :
    Except ParseErr (List Json) :=
  match elems with
  | [] => Except.ok []
  | v :: rest =>
      (patch_mut v toks value).bind
        (fun v' => (patch_elems rest toks value).map (fun rest' => v' :: rest'))
termination_by (sizeOf elems, 0)
decreasing_by
  all_goals simp_wf
  all_goals (apply Prod.Lex.left; first | omega | (simp; omega))

end

/-! ### String and key comparisons (openapi.rs / lib.rs)

Rust `str` comparison is lexicographic on bytes, which coincides with
lexicographic code-point order; it is modelled on the character lists of
Lean strings. -/

/-- `char` comparison by code point. -/
def cmpChar (a b : Char) : Ordering :=
  if a.toNat < b.toNat then Ordering.lt
  else if b.toNat < a.toNat then Ordering.gt
  else Ordering.eq

/-- Lexicographic comparison of character lists. -/
def cmpCharList : List Char → List Char → Ordering
  | [], [] => Ordering.eq
  | [], _ :: _ => Ordering.lt
  | _ :: _, [] => Ordering.gt
  | a :: ar, b :: br =>
      match cmpChar a b with
      | Ordering.eq => cmpCharList ar br
      | o => o

/-- Rust `String::cmp`. -/
def cmpStr (a b : String) : Ordering :=
  cmpCharList a.data b.data

/-- Rust `Option<String>::cmp` (`None` sorts before `Some`). -/
def cmpOptStr : Option String → Option String → Ordering
  | none, none => Ordering.eq
  | none, some _ => Ordering.lt
  | some _, none => Ordering.gt
  | some a, some b => cmpStr a b

/-- Rust `bool::cmp` (`false < true`). -/
def cmpBool (a b : Bool) : Ordering :=
  if a = b then Ordering.eq else if b then Ordering.lt else Ordering.gt

/-- `EnumKey` from `openapi.rs`.  The `Number` payload is modelled as an
integer (`serde_json::Number` restricted to integers, as in `Json.num`). -/
inductive EnumKey where
  | none : EnumKey
  | string (s : String) : EnumKey
  | number (n : Int) : EnumKey
  | bool (b : Bool) : EnumKey
  deriving DecidableEq

/-- `EnumVariant` from `openapi.rs`. -/
structure EnumVariant where
  name : Option String
  key : EnumKey
  description : Option String
  deriving DecidableEq

/-- `impl PartialOrd for EnumKey` (openapi.rs).  The Rust implementation
always returns `Some`, so the model returns `Ordering` directly; match arms
are in source order.  Note the `Number` fallback comparison is on the
DECIMAL STRING of the value (`a.to_string().cmp(&b.to_string())`). -/
def enumKeyCmp : EnumKey → EnumKey → Ordering
  | EnumKey.none, EnumKey.none => Ordering.eq
  | EnumKey.none, _ => Ordering.lt
  | _, EnumKey.none => Ordering.gt
  | EnumKey.bool a, EnumKey.bool b => cmpBool a b
  | EnumKey.number a, EnumKey.number b => cmpStr (toString a) (toString b)
  | EnumKey.string a, EnumKey.string b => cmpStr a b
  | EnumKey.bool _, _ => Ordering.lt
  | EnumKey.number _, EnumKey.bool _ => Ordering.gt
  | EnumKey.number _, _ => Ordering.lt
  | EnumKey.string _, _ => Ordering.gt

/-- Rank of an `EnumKey` kind in the cross-kind order enforced by
`enumKeyCmp` (`None < Bool < Number < String`); proof-side view only. -/
def keyRank : EnumKey → Nat
  | EnumKey.none => 0
  | EnumKey.bool _ => 1
  | EnumKey.number _ => 2
  | EnumKey.string _ => 3

/-- Same-kind fallback string of an `EnumKey`: the value `enumKeyCmp`
compares lexicographically once the kinds coincide (booleans as the
digits `0`/`1`, numbers as their DECIMAL STRING); proof-side view only. -/
def keyStr : EnumKey → String
  | EnumKey.none => ""
  | EnumKey.bool b => if b then "1" else "0"
  | EnumKey.number n => toString n
  | EnumKey.string s => s

/-- Rust `slice::sort_by` with a comparator: a stable sort.  A stable sort
is extensionally determined by the comparator, so it is modelled with
`List.mergeSort` (stable) on `cmp ≠ Greater`. -/
def rust_sort_by {α : Type} (cmp : α → α → Ordering) (l : List α) : List α :=
  l.mergeSort (fun a b => cmp a b != Ordering.gt)

/-- `sort_enum_variants` from `openapi.rs`: if any variant has key
`EnumKey::None`, sort by display name; otherwise sort by key (the
`unwrap_or(Equal)` is irrelevant because `partial_cmp` is total). -/
def sort_enum_variants (variants : List EnumVariant) : List EnumVariant :=
  if variants.any (fun v => v.key = EnumKey.none) then
    rust_sort_by (fun a b => cmpOptStr a.name b.name) variants
  else
    rust_sort_by (fun a b => enumKeyCmp a.key b.key) variants

/-- `ExternalDocumentation` from `openapi.rs`. -/
structure ExternalDocumentation where
  description : Option String
  url : Option String
  deriving DecidableEq

/-- `Tag` from `openapi.rs`. -/
structure Tag where
  name : String
  description : Option String
  external_docs : Option ExternalDocumentation
  deriving DecidableEq

/-- `impl PartialOrd for Tag` (lib.rs): sequential rules with early return.
`None` is produced only for two tags both named `other`. -/
def tag_partial_cmp (a b : Tag) : Option Ordering :=
  let a_is_plugin := starts_with a.name "Plugin"
  let b_is_plugin := starts_with b.name "Plugin"
  let a_is_lol_plugin := starts_with a.name "Plugin lol"
  let b_is_lol_plugin := starts_with b.name "Plugin lol"
  let a_other := a.name == "other"
  let b_other := b.name == "other"
  match a_is_plugin, b_is_plugin with
  | true, false => some Ordering.gt
  | false, true => some Ordering.lt
  | _, _ =>
      match a_is_lol_plugin, b_is_lol_plugin with
      | true, false => some Ordering.gt
      | false, true => some Ordering.lt
      | _, _ =>
          match a_other, b_other with
          | true, false => some Ordering.gt
          | false, true => some Ordering.lt
          | true, true => none
          | _, _ => some (cmpStr a.name b.name)

/-! ### Introspection ("help") data model (help.rs) -/

/-- `Info` from `help.rs`. -/
structure Info where
  name : String
  description : String
  deriving DecidableEq

/-- `DataType` from `help.rs`. -/
structure DataType where
  element_type : String
  ty : String
  deriving DecidableEq

/-- `DataType::string()`. -/
def DataType.string : DataType :=
  { ty := "string", element_type := "" }

/-- `Default` for `DataType` (both strings empty). -/
def DataType.default : DataType :=
  { ty := "", element_type := "" }

/-- `DataType::is_generic_object`. -/
def DataType.is_generic_object (dt : DataType) : Bool :=
  dt.ty == "object" && dt.element_type == ""

/-- `Argument` from `help.rs`. -/
structure Argument where
  info : Info
  is_optional : Bool
  ty : DataType
  deriving DecidableEq

/-- `HttpMethod` from `help.rs`. -/
inductive HttpMethod where
  | get | post | put | patch | delete | head | options | trace
  deriving DecidableEq

/-- `Endpoint` from `help.rs` (field `nameSpace` follows the wire name,
since `namespace` is reserved in Lean). -/
structure Endpoint where
  info : Info
  nameSpace : String
  help : String
  arguments : List Argument
  tags : List String
  method : Option HttpMethod
  path : Option String
  path_params : List String
  return_ty : DataType
  is_async : Bool
  is_thread_safe : Bool
  is_override : Bool
  is_silent_override : Bool
  deriving DecidableEq

/-- `Value` from `help.rs` (named `HelpValue` to avoid clashing with other
`Value`s); its `value` payload is a raw JSON literal. -/
structure HelpValue where
  name : String
  description : String
  value : Json

/-- `Field` from `help.rs` (named `HelpField`: `Field` collides with the
algebra class). -/
structure HelpField where
  info : Info
  offset : Nat
  is_optional : Bool
  ty : DataType
  deriving DecidableEq

/-- `Type` from `help.rs` (named `HelpType`: `Type` is reserved in Lean). -/
structure HelpType where
  values : List HelpValue
  fields : List HelpField
  info : Info
  nameSpace : String
  size : Nat
  tags : List String

/-! ### OpenAPI document model (openapi.rs)

`FxHashMap`s are modelled as association lists (`alLookup`/`alInsert`
mirror map access; no embedded claim depends on hash iteration order). -/

/-- `collect::<Result<Vec<_>, _>>` over a list: sequence a fallible map,
first error wins. -/
def exceptMapM {ε α β : Type} (f : α → Except ε β) : List α → Except ε (List β)
  | [] => Except.ok []
  | a :: l => (f a).bind (fun b => (exceptMapM f l).map (fun bs => b :: bs))

/-- Map lookup on an association list. -/
def alLookup {α : Type} (l : List (String × α)) (k : String) : Option α :=
  match l with
  | [] => none
  | (k', v) :: rest => if k' = k then some v else alLookup rest k

/-- Map membership on an association list. -/
def alContains {α : Type} (l : List (String × α)) (k : String) : Bool :=
  match l with
  | [] => false
  | (k', _) :: rest => if k' = k then true else alContains rest k

/-- Map insert on an association list (replace in place or append). -/
def alInsert {α : Type} (l : List (String × α)) (k : String) (v : α) :
    List (String × α) :=
  match l with
  | [] => [(k, v)]
  | (k', v') :: rest =>
      if k' = k then (k, v) :: rest else (k', v') :: alInsert rest k v

/-- `IntegerFormat` from `openapi.rs`. -/
inductive IntegerFormat where
  | uint8 | uint16 | uint32 | uint64 | int8 | int16 | int32 | int64
  deriving DecidableEq

/-- `NumberFormat` from `openapi.rs`. -/
inductive NumberFormat where
  | float | double
  deriving DecidableEq

/-- `FromStr for IntegerFormat`. -/
def IntegerFormat.from_str (s : String) : Except ParseErr IntegerFormat :=
  if s = "int8" then Except.ok IntegerFormat.int8
  else if s = "int16" then Except.ok IntegerFormat.int16
  else if s = "int32" then Except.ok IntegerFormat.int32
  else if s = "int64" then Except.ok IntegerFormat.int64
  else if s = "uint8" then Except.ok IntegerFormat.uint8
  else if s = "uint16" then Except.ok IntegerFormat.uint16
  else if s = "uint32" then Except.ok IntegerFormat.uint32
  else if s = "uint64" then Except.ok IntegerFormat.uint64
  else Except.error ParseErr.formatIsNotAnInteger

/-- `FromStr for NumberFormat`. -/
def NumberFormat.from_str (s : String) : Except ParseErr NumberFormat :=
  if s = "float" then Except.ok NumberFormat.float
  else if s = "double" then Except.ok NumberFormat.double
  else Except.error ParseErr.formatIsNotANumber

/- `SchemaObject` / `TypedSchema` / `AdditionalProperties` from
`openapi.rs`.  `ArraySchema`, `StringSchema`, `RefSchema` and
`ObjectSchema` are single-field wrappers in the source and are inlined
into the corresponding `TypedSchema` constructors (`object` carries the
three `ObjectSchema` fields in declaration order: properties,
additional_properties, required). -/

mutual

/-- `SchemaObject`: a typed schema plus passthrough extra fields. -/
inductive SchemaObject where
  | mk (ty : TypedSchema) (additional_fields : List (String × Json)) : SchemaObject

/-- `TypedSchema`. -/
inductive TypedSchema where
  | array (items : SchemaObject) : TypedSchema
  | string (variants : List EnumVariant) : TypedSchema
  | integer (format : Option IntegerFormat) : TypedSchema
  | number (format : Option NumberFormat) : TypedSchema
  | boolean : TypedSchema
  | ref (target : String) : TypedSchema
  | object (properties : List (String × SchemaObject))
      (additional_properties : AdditionalProperties)
      (required : List String) : TypedSchema

/-- `AdditionalProperties`. -/
inductive AdditionalProperties where
  | bool (b : Bool) : AdditionalProperties
  | schema (s : SchemaObject) : AdditionalProperties

end

/-- Projection of the `ty` field of a `SchemaObject`. -/
def SchemaObject.ty : SchemaObject → TypedSchema
  | SchemaObject.mk t _ => t

/-- `trim_start_matches`: repeatedly strip a (non-empty) prefix. -/
def trim_start_matches (s : String) (pre : String) : String :=
  if h : 0 < pre.length ∧ starts_with s pre then
    trim_start_matches (s.drop pre.length) pre
  else s
termination_by s.length
decreasing_by
  obtain ⟨hpos, hpre⟩ := h
  have hle : pre.length ≤ s.length := by
    have := List.IsPrefix.length_le (List.isPrefixOf_iff_prefix.mp hpre)
    simpa using this
  have hdrop : (s.drop pre.length).length = s.length - pre.length := by
    rw [String.drop_eq]
    show (s.data.drop pre.length).length = s.data.length - pre.length
    simp
  simp [hdrop]
  omega

/-- `SchemaObject::component_ref`. -/
def SchemaObject.component_ref (name : String) : SchemaObject :=
  SchemaObject.mk
    (TypedSchema.ref
      ("#/components/schemas/" ++
        trim_start_matches (trim_start_matches name "/") "#/components/schemas/"))
    []

/-- `SchemaObject::string()`. -/
def SchemaObject.string : SchemaObject :=
  SchemaObject.mk (TypedSchema.string []) []

/-- `SchemaObject::string_of`. -/
def SchemaObject.string_of (variants : List EnumVariant) : SchemaObject :=
  SchemaObject.mk (TypedSchema.string variants) []

/-- `SchemaObject::number` (format parse failure degrades to `None`). -/
def SchemaObject.number (format : String) : SchemaObject :=
  SchemaObject.mk (TypedSchema.number (NumberFormat.from_str format).toOption) []

/-- `SchemaObject::integer`. -/
def SchemaObject.integer (format : String) : SchemaObject :=
  SchemaObject.mk (TypedSchema.integer (IntegerFormat.from_str format).toOption) []

/-- `SchemaObject::object_of`: empty object schema with the given
`additionalProperties`. -/
def SchemaObject.object_of (ap : AdditionalProperties) : SchemaObject :=
  SchemaObject.mk (TypedSchema.object [] ap []) []

/-- `SchemaObject::bool()`. -/
def SchemaObject.boolS : SchemaObject :=
  SchemaObject.mk TypedSchema.boolean []

/-- `SchemaObject::try_parse_item_type`. -/
def try_parse_item_type (ty : String) : Except ParseErr SchemaObject :=
  if ty = "array" ∨ ty = "vector" then Except.error ParseErr.vectorTypesShouldBeParsed
  else if ty = "map" ∨ ty = "object" then Except.error ParseErr.objectTypesShouldBeParsed
  else if ty = "string" then Except.ok SchemaObject.string
  else if ty = "bool" ∨ ty = "boolean" then Except.ok SchemaObject.boolS
  else if ty = "" then Except.ok (SchemaObject.object_of (AdditionalProperties.bool true))
  else if ty = "float" ∨ ty = "double" then Except.ok (SchemaObject.number ty)
  else if ty = "uint8" ∨ ty = "uint16" ∨ ty = "uint32" ∨ ty = "uint64" ∨
          ty = "int8" ∨ ty = "int16" ∨ ty = "int32" ∨ ty = "int64" then
    Except.ok (SchemaObject.integer ty)
  else Except.ok (SchemaObject.component_ref ty)

/-- `TryFrom<&help::DataType> for SchemaObject` (openapi.rs). -/
def SchemaObject.try_from_data_type (dt : DataType) : Except ParseErr SchemaObject :=
  if dt.is_generic_object then
    Except.ok (SchemaObject.object_of (AdditionalProperties.bool true))
  else
    match try_parse_item_type dt.ty with
    | Except.error ParseErr.vectorTypesShouldBeParsed =>
        (match try_parse_item_type dt.element_type with
         | Except.ok schema =>
             Except.ok (SchemaObject.mk (TypedSchema.array schema) [])
         | Except.error ParseErr.objectTypesShouldBeParsed =>
             Except.ok
               (SchemaObject.mk
                 (TypedSchema.array
                   (SchemaObject.object_of (AdditionalProperties.bool true))) [])
         | Except.error e => Except.error e)
    | Except.error ParseErr.objectTypesShouldBeParsed =>
        (match try_parse_item_type dt.element_type with
         | Except.ok schema =>
             Except.ok (SchemaObject.object_of (AdditionalProperties.schema schema))
         | Except.error ParseErr.objectTypesShouldBeParsed =>
             Except.ok
               (SchemaObject.object_of
                 (AdditionalProperties.schema
                   (SchemaObject.object_of (AdditionalProperties.bool true))))
         | Except.error e => Except.error e)
    | res => res

/-! ### Paths model (openapi.rs, `paths` module) -/

/-- `ParamStyle`. -/
inductive ParamStyle where
  | matrix | label | form | simple | spaceDelimited | pipeDelimited | deepObject
  deriving DecidableEq

/-- `Example` from `openapi.rs`. -/
structure Example where
  summary : Option String
  description : Option String
  value : Option Json
  external_value : Option String

/-- `ParamOptions` from `openapi.rs`. -/
structure ParamOptions where
  description : Option String
  schema : Option SchemaObject
  is_required : Bool
  is_deprecated : Bool
  allow_empty_values : Bool
  should_explode : Bool
  exampleVal : Option String
  examples : List (String × Example)

/-- `Default` for `ParamOptions`. -/
def ParamOptions.default : ParamOptions :=
  { description := none, schema := none, is_required := false,
    is_deprecated := false, allow_empty_values := false,
    should_explode := false, exampleVal := none, examples := [] }

/-- `ParamSchema` from `openapi.rs`. -/
structure ParamSchema where
  name : String
  style : ParamStyle
  options : ParamOptions

/-- `Param` from `openapi.rs`.  `query` carries `allow_reserved` as in the
source enum. -/
inductive Param where
  | query (param : ParamSchema) (allow_reserved : Bool) : Param
  | header (p : ParamSchema) : Param
  | path (p : ParamSchema) : Param
  | cookie (p : ParamSchema) : Param
  | ref (r : String) : Param

/-- `MediaType` from `openapi.rs`. -/
structure MediaType where
  schema : SchemaObject

/-- `RequestBody` from `openapi.rs`. -/
structure RequestBody where
  description : Option String
  content : List (String × MediaType)
  is_required : Bool

/-- `Default` for `RequestBody`. -/
def RequestBody.default : RequestBody :=
  { description := none, content := [], is_required := false }

/-- `Response` from `openapi.rs`. -/
structure Response where
  content : List (String × MediaType)
  description : Option String

/-- `Default` for `Response`. -/
def Response.default : Response :=
  { content := [], description := none }

/-- `ServerVariable` from `openapi.rs`. -/
structure ServerVariable where
  description : Option String
  enum_values : List String
  defaultVal : String

/-- `ServerSpec` from `openapi.rs`. -/
structure ServerSpec where
  description : Option String
  url : String
  variableMap : List (String × ServerVariable)

/-- `Operation` from `openapi.rs`.  The `callbacks` map is omitted from the
model: `Callback` recursively contains `PathItem` (which contains
`Operation`), the embedded resolvers only ever leave it at its default
empty value, and no claim reads it. -/
structure Operation where
  operation_id : Option String
  summary : Option String
  description : Option String
  tags : List String
  parameters : List Param
  request_body : Option RequestBody
  responses : List (String × Response)
  is_deprecated : Bool
  security : List (String × List String)
  servers : List ServerSpec
  external_docs : Option ExternalDocumentation

/-- `Default` for `Operation`. -/
def Operation.default : Operation :=
  { operation_id := none, summary := none, description := none, tags := [],
    parameters := [], request_body := none, responses := [],
    is_deprecated := false, security := [], servers := [],
    external_docs := none }

/-- `PathItem` from `openapi.rs`. -/
structure PathItem where
  ref_ : Option String
  summary : Option String
  description : Option String
  servers : List ServerSpec
  get : Option Operation
  post : Option Operation
  put : Option Operation
  delete : Option Operation
  options : Option Operation
  head : Option Operation
  patch : Option Operation
  trace : Option Operation

/-- `Default` for `PathItem`. -/
def PathItem.default : PathItem :=
  { ref_ := none, summary := none, description := none, servers := [],
    get := none, post := none, put := none, delete := none, options := none,
    head := none, patch := none, trace := none }

/-- `OpenApiInfo` from `openapi.rs`. -/
structure OpenApiInfo where
  title : String
  version : String
  description : Option String
  deriving DecidableEq

/-- `OpenApiSpec` from `openapi.rs` (`components` is the inner
`Components.schemas` map). -/
structure OpenApiSpec where
  openapi : String
  info : OpenApiInfo
  paths : List (String × PathItem)
  components : List (String × SchemaObject)
  tags : List Tag

/-- `RequestBody::with_content` (`InsertBodyContent`). -/
def RequestBody.with_content (rb : RequestBody) (key : String) (mt : MediaType) :
    RequestBody :=
  { rb with content := alInsert rb.content key mt }

/-- `Response::with_content` (`InsertBodyContent`). -/
def Response.with_content (r : Response) (key : String) (mt : MediaType) :
    Response :=
  { r with content := alInsert r.content key mt }

/-- `Response::with_description` (`Descriptable`). -/
def Response.with_description (r : Response) (d : Option String) : Response :=
  { r with description := d }

/-! ### Type resolver (openapi.rs, `TryFrom<&help::Type> for SchemaObject`) -/

/-- One enum `Value` to an `EnumVariant`: key from the JSON literal kind
(non-scalar kinds fail), empty name/description become `None`. -/
def value_to_variant (v : HelpValue) : Except ParseErr EnumVariant :=
  match v.value with
  | Json.null =>
      Except.ok
        { key := EnumKey.none,
          name := if v.name = "" then none else some v.name,
          description := if v.description = "" then none else some v.description }
  | Json.bool a =>
      Except.ok
        { key := EnumKey.bool a,
          name := if v.name = "" then none else some v.name,
          description := if v.description = "" then none else some v.description }
  | Json.num a =>
      Except.ok
        { key := EnumKey.number a,
          name := if v.name = "" then none else some v.name,
          description := if v.description = "" then none else some v.description }
  | Json.str a =>
      Except.ok
        { key := EnumKey.string a,
          name := if v.name = "" then none else some v.name,
          description := if v.description = "" then none else some v.description }
  | _ => Except.error (ParseErr.json "unsupported enum value type")

/-- The field loop of the `help::Type` conversion: accumulate properties
and required names; duplicate field names are skipped (keep first), a
`PrivateApiTypeNotSupported` field resolution is skipped, any other error
propagates. -/
def resolve_type_fields (fs : List HelpField)
    (props : List (String × SchemaObject)) (required : List String) :
    Except ParseErr (List (String × SchemaObject) × List String) :=
  match fs with
  | [] => Except.ok (props, required)
  | f :: rest =>
      if alContains props f.info.name then
        resolve_type_fields rest props required
      else
        match SchemaObject.try_from_data_type f.ty with
        | Except.ok schema =>
            resolve_type_fields rest (alInsert props f.info.name schema)
              (if f.is_optional then required else required ++ [f.info.name])
        | Except.error ParseErr.privateApiTypeNotSupported =>
            resolve_type_fields rest props required
        | Except.error e => Except.error e

/-- `TryFrom<&help::Type> for SchemaObject`.  The outer `Option` models the
`assert!` panic when the type has BOTH fields and values; both EMPTY is the
(recoverable) `PrivateApiTypeNotSupported` error. -/
def type_to_schema (t : HelpType) : Option (Except ParseErr SchemaObject) :=
  let is_object := !t.fields.isEmpty
  let is_enum := !t.values.isEmpty
  if is_object && is_enum then none
  else
    some
      ((resolve_type_fields t.fields [] []).bind (fun pr =>
        if is_object then
          Except.ok
            (SchemaObject.mk
              (TypedSchema.object pr.1 (AdditionalProperties.bool false) pr.2) [])
        else if is_enum then
          (exceptMapM value_to_variant t.values).map
            (fun variants => SchemaObject.string_of (sort_enum_variants variants))
        else Except.error ParseErr.privateApiTypeNotSupported))

/-- `OpenApiSpec::resolve_components` (lib.rs): convert every type,
inserting successes into the component map, silently skipping
`PrivateApiTypeNotSupported`, propagating anything else; `none` models a
panicking conversion. -/
def resolve_components (spec : OpenApiSpec) (types : List HelpType) :
    Option (Except ParseErr OpenApiSpec) :=
  match types with
  | [] => some (Except.ok spec)
  | t :: rest =>
      match type_to_schema t with
      | none => none
      | some (Except.ok schema) =>
          resolve_components
            { spec with components := alInsert spec.components t.info.name schema }
            rest
      | some (Except.error ParseErr.privateApiTypeNotSupported) =>
          resolve_components spec rest
      | some (Except.error e) => some (Except.error e)

/-! ### Endpoint resolver (lib.rs, `impl Endpoint`) -/

/-- Rust `str::replacen(pat, "", 1)` for a single-character pattern:
remove the first occurrence of the character. -/
def replacen_once (s : String) (c : Char) : String :=
  String.mk (go s.data)
where
  go : List Char → List Char
  | [] => []
  | x :: xs => if x = c then xs else x :: go xs

/-- `Endpoint::path_param_as_path_variant` (lib.rs): resolve ONE declared
path-parameter name to a `Param::Path`, matching arguments by name with a
`+` marker stripped from both sides, defaulting to an unconstrained string
schema when no argument matches. -/
def path_param_as_path_variant (e : Endpoint) (param : String) :
    Except ParseErr Param :=
  let schemaRes :=
    match e.arguments.find?
        (fun arg => replacen_once arg.info.name '+' = replacen_once param '+') with
    | some a => SchemaObject.try_from_data_type a.ty
    | none => SchemaObject.try_from_data_type DataType.string
  schemaRes.map
    (fun schema =>
      Param.path
        { name := param, style := ParamStyle.simple,
          options :=
            { ParamOptions.default with schema := some schema, is_required := true } })

/-- `help::Argument::as_query_param` (lib.rs). -/
def Argument.as_query_param (arg : Argument) : Except ParseErr Param :=
  (SchemaObject.try_from_data_type arg.ty).map
    (fun schema =>
      Param.query
        { name := arg.info.name, style := ParamStyle.form,
          options :=
            { ParamOptions.default with
                schema := some schema, is_required := !arg.is_optional } }
        false)

/-- `Itertools::dedup`: remove CONSECUTIVE duplicates. -/
def dedup_consecutive : List String → List String
  | [] => []
  | [x] => [x]
  | x :: y :: rest =>
      if x = y then dedup_consecutive (y :: rest)
      else x :: dedup_consecutive (y :: rest)

/-- The fixed `IGNORE_TAGS` of `Endpoint::operation`. -/
def IGNORE_TAGS : List String := ["Plugins", "$remoting-binding-module"]

/-- Tag derivation inside `Endpoint::operation`: path-derived synthetic
tag, endpoint tags appended, consecutive duplicates removed, ignore-list
filtered. -/
def operation_tags (path : String) (e : Endpoint) : List String :=
  let base :=
    match (split_on_char path '/').get? 1 with
    | some segment =>
        if starts_with path "/lol-" then ["Plugin " ++ segment]
        else if starts_with path "/{plugin}" then ["Plugin Static Assets"]
        else [segment]
    | none => []
  (dedup_consecutive (base ++ e.tags)).filter (fun t => !(IGNORE_TAGS.contains t))

/-- The per-argument body of the single-query-verb loop in
`Endpoint::operation`: resolve the argument's schema; a reference schema is
resolved against the document's components (missing referent is
`InvalidData`); an object schema is flattened into one query parameter per
property (carrying the argument's optionality); anything else becomes one
query parameter. -/
def query_params_of_arg (spec : OpenApiSpec) (arg : Argument) :
    Except ParseErr (List Param) :=
  (SchemaObject.try_from_data_type arg.ty).bind (fun schema =>
    (match schema.ty with
     | TypedSchema.ref target =>
         (match alLookup spec.components ((split_on_char target '/').getLastD "") with
          | some s => Except.ok s
          | none => Except.error ParseErr.invalidData)
     | _ => Except.ok schema).bind (fun schemaR =>
      match schemaR.ty with
      | TypedSchema.object props _ _ =>
          Except.ok
            (props.map (fun (nv : String × SchemaObject) =>
              Param.query
                { name := nv.1, style := ParamStyle.form,
                  options :=
                    { ParamOptions.default with
                        schema := some nv.2, is_required := !arg.is_optional } }
                false))
      | _ => (Argument.as_query_param arg).map (fun p => [p])))

/-- The response resolution of `Endpoint::operation`: resolve the return
type; `ObjectTypesShouldBeParsed` / `VectorTypesShouldBeParsed` propagate,
any other failure degrades to a bare `Success response`. -/
def operation_response (e : Endpoint) : Except ParseErr Response :=
  match SchemaObject.try_from_data_type e.return_ty with
  | Except.ok schema =>
      Except.ok (Response.default.with_content "application/json" ⟨schema⟩)
  | Except.error ParseErr.objectTypesShouldBeParsed =>
      Except.error ParseErr.objectTypesShouldBeParsed
  | Except.error ParseErr.vectorTypesShouldBeParsed =>
      Except.error ParseErr.vectorTypesShouldBeParsed
  | Except.error _ =>
      Except.ok (Response.default.with_description (some "Success response"))

/-- `Endpoint::operation` (lib.rs). -/
def Endpoint.operation (e : Endpoint) (spec : OpenApiSpec) :
    Except ParseErr Operation :=
  (exceptMapM (path_param_as_path_variant e) e.path_params).bind (fun params0 =>
    (if (e.arguments.drop e.path_params.length).length > 1 then
      (exceptMapM Argument.as_query_param (e.arguments.drop e.path_params.length)).map
        (fun qs => (params0 ++ qs, none))
     else
      match e.method with
      | some HttpMethod.get | some HttpMethod.delete | some HttpMethod.head
      | some HttpMethod.options | some HttpMethod.trace =>
          (exceptMapM (query_params_of_arg spec) (e.arguments.drop params0.length)).map
            (fun qss => (params0 ++ qss.flatten, none))
      | _ =>
          match e.arguments.get? params0.length with
          | some body_type =>
              (SchemaObject.try_from_data_type body_type.ty).map
                (fun schema =>
                  (params0,
                   some (RequestBody.default.with_content "application/json" ⟨schema⟩)))
          | none => Except.ok (params0, none)).bind (fun pb =>
      (operation_response e).bind (fun response =>
        match e.path with
        | none => Except.error ParseErr.endpointPathCannotBeNone
        | some path =>
            Except.ok
              { Operation.default with
                  tags := operation_tags path e,
                  description := some e.info.description,
                  operation_id := some e.info.name,
                  parameters := pb.1,
                  request_body := pb.2,
                  responses := [("2XX", response)] })))

/-- Store an operation under its HTTP verb in a `PathItem`
(the `match endpoint.method` of `resolve_paths`). -/
def set_method_op (pi : PathItem) (m : HttpMethod) (op : Operation) : PathItem :=
  match m with
  | HttpMethod.get => { pi with get := some op }
  | HttpMethod.post => { pi with post := some op }
  | HttpMethod.put => { pi with put := some op }
  | HttpMethod.delete => { pi with delete := some op }
  | HttpMethod.patch => { pi with patch := some op }
  | HttpMethod.options => { pi with options := some op }
  | HttpMethod.head => { pi with head := some op }
  | HttpMethod.trace => { pi with trace := some op }

/-- `OpenApiSpec::resolve_paths` (lib.rs).  An endpoint with a null `path`
is SKIPPED (with a log line) before conversion; otherwise the operation is
built (errors abort the run), the path entry is created
(`entry(..).or_default()`) even when the method is `None`, and the
operation is stored under its verb. -/
def resolve_paths (spec : OpenApiSpec) (endpoints : List Endpoint) :
    Except ParseErr OpenApiSpec :=
  match endpoints with
  | [] => Except.ok spec
  | e :: rest =>
      match e.path with
      | none => resolve_paths spec rest
      | some path =>
          (Endpoint.operation e spec).bind (fun op =>
            let entry := (alLookup spec.paths path).getD PathItem.default
            let paths1 :=
              if alContains spec.paths path then spec.paths
              else alInsert spec.paths path PathItem.default
            match e.method with
            | some m =>
                resolve_paths
                  { spec with paths := alInsert paths1 path (set_method_op entry m op) }
                  rest
            | none => resolve_paths { spec with paths := paths1 } rest)

/-! ### Patch table (lib.rs, `apply_endpoint_patches!`) -/

/-- Apply one correction list `[(path, value)]` to one endpoint JSON via
`patch_mut` with `Some(value)`, left to right, propagating the first
error. -/
def apply_patch_list (j : Json) (kvs : List (String × Json)) :
    Except ParseErr Json :=
  match kvs with
  | [] => Except.ok j
  | (p, v) :: rest =>
      (patch_mut j (tokenizeT p) (some v)).bind (fun j' => apply_patch_list j' rest)

/-- The inner `$( if json.name == $name { ... } )*` expansion: try every
table entry against one endpoint JSON (entries whose name does not match
leave it untouched). -/
def apply_table_to_json (j : Json) (n : String)
    (table : List (String × List (String × Json))) : Except ParseErr Json :=
  match table with
  | [] => Except.ok j
  | (entryName, kvs) :: rest =>
      if entryName = n then
        (apply_patch_list j kvs).bind (fun j' => apply_table_to_json j' n rest)
      else apply_table_to_json j n rest

/-- `json.get("name").and_then(|v| v.as_str())`: `none` means the
subsequent `unwrap()` panics. -/
def json_name (j : Json) : Option String :=
  match j with
  | Json.obj fields =>
      match Json.lookupAL fields "name" with
      | some (Json.str s) => some s
      | _ => none
  | _ => none

/-- `apply_endpoint_patches!` (lib.rs): for every endpoint JSON, apply the
matching table entries.  Outer `Option`: `none` models the `unwrap()` panic
when an endpoint JSON has no string `name`; patch errors propagate as the
macro's `?`. -/
def apply_endpoint_patches (jsons : List Json)
    (table : List (String × List (String × Json))) :
    Option (Except ParseErr (List Json)) :=
  match jsons with
  | [] => some (Except.ok [])
  | j :: rest =>
      match json_name j with
      | none => none
      | some n =>
          match apply_table_to_json j n table with
          | Except.error e => some (Except.error e)
          | Except.ok j' =>
              match apply_endpoint_patches rest table with
              | none => none
              | some (Except.error e) => some (Except.error e)
              | some (Except.ok rest') => some (Except.ok (j' :: rest'))

/-- The fixed patch table of `PoroSchema::extended_help` (lib.rs). -/
def PATCH_TABLE : List (String × List (String × Json)) :=
  [("Help", [("method", Json.str "post"), ("path", Json.str "/Help")]),
   ("Subscribe", [("method", Json.str "post"), ("path", Json.str "/Subscribe")]),
   ("Unsubscribe", [("method", Json.str "post"), ("path", Json.str "/Unsubscribe")]),
   ("AsyncDelete", [("method", Json.str "post"), ("path", Json.str "/AsyncDelete")]),
   ("AsyncResult", [("method", Json.str "post"), ("path", Json.str "/AsyncResult")]),
   ("AsyncStatus", [("method", Json.str "post"), ("path", Json.str "/AsyncStatus")]),
   ("Cancel", [("method", Json.str "post"), ("path", Json.str "/Cancel")]),
   ("Exit", [("method", Json.str "post"), ("path", Json.str "/Exit")]),
   ("WebSocketFormat",
    [("method", Json.str "post"), ("path", Json.str "/WebSocketFormat")]),
   ("LoggingGetEntries",
    [("method", Json.str "post"), ("path", Json.str "/LoggingGetEntries")]),
   ("LoggingMetrics",
    [("method", Json.str "post"), ("path", Json.str "/LoggingMetrics")]),
   ("LoggingMetricsMetadata",
    [("method", Json.str "post"), ("path", Json.str "/LoggingMetricsMetadata")]),
   ("LoggingStart", [("method", Json.str "post"), ("path", Json.str "/LoggingStart")]),
   ("LoggingStop", [("method", Json.str "post"), ("path", Json.str "/LoggingStop")]),
   ("GetRiotclientRegionLocale", [("tags", Json.arr [Json.str "riotclient"])])]

/-! ### Concrete instances used by the theorems below -/

/-- An empty OpenAPI document (fresh `OpenApiSpec::from(info)`). -/
def exSpec : OpenApiSpec :=
  { openapi := "3.0.0",
    info := { title := "LCU PORO-SCHEMA", version := "0", description := none },
    paths := [], components := [], tags := [] }

/-- Endpoint construction helper covering the fields the resolvers read. -/
def mkEndpoint (name : String) (args : List Argument) (m : Option HttpMethod)
    (p : Option String) : Endpoint :=
  { info := { name := name, description := "d" }, nameSpace := "", help := "",
    arguments := args, tags := [], method := m, path := p, path_params := [],
    return_ty := DataType.default, is_async := false, is_thread_safe := false,
    is_override := false, is_silent_override := false }

/-- A non-optional string argument. -/
def mkArg (n : String) : Argument :=
  { info := { name := n, description := "" }, is_optional := false,
    ty := DataType.string }

/-- An endpoint whose introspected `path` is null. -/
def exEndpointNoPath : Endpoint :=
  mkEndpoint "GetNoPath" [] (some HttpMethod.get) none

/-- GET endpoint with two non-path arguments. -/
def exEndpointTwoGet : Endpoint :=
  mkEndpoint "GetTwo" [mkArg "a", mkArg "b"] (some HttpMethod.get) (some "/x/y")

/-- POST endpoint with one non-path argument. -/
def exEndpointOnePost : Endpoint :=
  mkEndpoint "PostOne" [mkArg "a"] (some HttpMethod.post) (some "/x/y")

/-- GET endpoint with one non-path argument. -/
def exEndpointOneGet : Endpoint :=
  mkEndpoint "GetOne" [mkArg "a"] (some HttpMethod.get) (some "/x/y")

/-- The raw `Help` endpoint JSON before the patch table. -/
def exHelpJson : Json :=
  Json.obj [("name", Json.str "Help"), ("method", Json.str "get"),
            ("path", Json.str "/help")]

/-- The `Help` endpoint JSON after the patch table. -/
def exHelpJsonPatched : Json :=
  Json.obj [("name", Json.str "Help"), ("method", Json.str "post"),
            ("path", Json.str "/Help")]

/-- An endpoint JSON whose name matches no patch-table entry. -/
def exUnknownJson : Json :=
  Json.obj [("name", Json.str "GetSomethingElse")]

/-- The C3 document `{"a": {"b": {"x": 1}}}`. -/
def exC3doc : Json :=
  Json.obj [("a", Json.obj [("b", Json.obj [("x", Json.num 1)])])]

/-- The C3 document after `patch_mut` with path `**.x` and value `7`: the
nested `a.b.x` is untouched and a NEW `a.x` is created one level deep. -/
def exC3patched : Json :=
  Json.obj [("a", Json.obj [("b", Json.obj [("x", Json.num 1)]),
                            ("x", Json.num 7)])]

/-- An introspected type with `fields` and `values` both empty. -/
def exTypeBothEmpty : HelpType :=
  { values := [], fields := [],
    info := { name := "EmptyType", description := "" },
    nameSpace := "", size := 0, tags := [] }

/-- An introspected type with `fields` and `values` both non-empty. -/
def exTypeBothFull : HelpType :=
  { values := [{ name := "A", description := "", value := Json.str "A" }],
    fields := [{ info := { name := "f", description := "" }, offset := 0,
                 is_optional := false, ty := DataType.string }],
    info := { name := "FullType", description := "" },
    nameSpace := "", size := 0, tags := [] }

/-- Enum variant with display name and number key `10`. -/
def exVarTen : EnumVariant :=
  { name := some "a", key := EnumKey.number 10, description := none }

/-- Enum variant with display name and number key `9`. -/
def exVarNine : EnumVariant :=
  { name := some "b", key := EnumKey.number 9, description := none }

/-- Name of a parameter (observer used by the theorems). -/
def paramName : Param → String
  | Param.query p _ => p.name
  | Param.header p => p.name
  | Param.path p => p.name
  | Param.cookie p => p.name
  | Param.ref r => r

/-- Is a parameter a query parameter. -/
def Param.isQuery : Param → Bool
  | Param.query _ _ => true
  | _ => false

/-! ### General helper lemmas -/

theorem exceptBind_ok {ε α β : Type} {x : Except ε α} {f : α → Except ε β}
    {b : β} (h : x.bind f = Except.ok b) :
    ∃ a, x = Except.ok a ∧ f a = Except.ok b := by
  cases x with
  | error e => simp [Except.bind] at h
  | ok a => exact ⟨a, rfl, by simpa [Except.bind] using h⟩

theorem exceptMap_ok {ε α β : Type} {x : Except ε α} {f : α → β} {b : β}
    (h : x.map f = Except.ok b) : ∃ a, x = Except.ok a ∧ f a = b := by
  cases x with
  | error e => simp [Except.map] at h
  | ok a => exact ⟨a, rfl, by simpa [Except.map] using h⟩

theorem exceptMapM_ok_cons {ε α β : Type} {f : α → Except ε β} {a : α}
    {l : List α} {r : List β} (h : exceptMapM f (a :: l) = Except.ok r) :
    ∃ b rs, f a = Except.ok b ∧ exceptMapM f l = Except.ok rs ∧ r = b :: rs := by
  rw [exceptMapM] at h
  obtain ⟨b, hb, h⟩ := exceptBind_ok h
  obtain ⟨rs, hrs, h⟩ := exceptMap_ok h
  exact ⟨b, rs, hb, hrs, h.symm⟩

theorem exceptMapM_ok_length {ε α β : Type} {f : α → Except ε β} :
    ∀ {l : List α} {r : List β}, exceptMapM f l = Except.ok r →
      r.length = l.length := by
  intro l
  induction l with
  | nil => intro r h; simp [exceptMapM] at h; subst h; simp
  | cons a t ih =>
      intro r h
      obtain ⟨b, rs, _, hrs, hr⟩ := exceptMapM_ok_cons h
      subst hr
      simp [ih hrs]

theorem exceptMapM_ok_map_eq {ε α β γ : Type} {f : α → Except ε β} {g : β → γ}
    {g' : α → γ} (hg : ∀ a b, f a = Except.ok b → g b = g' a) :
    ∀ {l : List α} {r : List β}, exceptMapM f l = Except.ok r →
      r.map g = l.map g' := by
  intro l
  induction l with
  | nil => intro r h; simp [exceptMapM] at h; subst h; simp
  | cons a t ih =>
      intro r h
      obtain ⟨b, rs, hb, hrs, hr⟩ := exceptMapM_ok_cons h
      subst hr
      simp [hg a b hb, ih hrs]

theorem exceptMapM_ok_forall {ε α β : Type} {f : α → Except ε β} {P : β → Prop}
    (hf : ∀ a b, f a = Except.ok b → P b) :
    ∀ {l : List α} {r : List β}, exceptMapM f l = Except.ok r → ∀ b ∈ r, P b := by
  intro l
  induction l with
  | nil => intro r h; simp [exceptMapM] at h; subst h; simp
  | cons a t ih =>
      intro r h
      obtain ⟨b, rs, hb, hrs, hr⟩ := exceptMapM_ok_cons h
      subst hr
      intro c hc
      rcases List.mem_cons.mp hc with hc | hc
      · exact hc ▸ hf a b hb
      · exact ih hrs c hc

/-! ### C3 -/

/-- C3 (code bug): the claim states that for a `**`-path with a trailing
literal, the value set read by `navigate` coincides with the value set
mutated by `patch_mut`.  On `{"a": {"b": {"x": 1}}}` with path `**.x`:
`navigate` (correctly, per the `Wildcard::UntilNext` documentation
"matches any property on every level") returns the nested value at
`a.b.x`, but `patch_mut` treats `**` exactly like `*` (a single-level
fan-out), so it inserts a NEW property `x` one level deep (at `a.x`) and
leaves `a.b.x` untouched: re-navigating the patched document reads the
fresh `a.x = 7` AND the never-mutated old `a.b.x = 1`.  The value set read
by `navigate` (`{a.b.x}`) and the value set mutated by `patch_mut`
(`{a.x}`, shown by the final `lookupAL` conjunct) are disjoint, refuting
the read-scope/write-scope coincidence. -/
theorem C3_wildcard_scope_divergence :
    navigate exC3doc (tokenizeT "**.x") true = Except.ok [Json.num 1] ∧
    patch_mut exC3doc (tokenizeT "**.x") (some (Json.num 7)) =
      Except.ok exC3patched ∧
    navigate exC3patched (tokenizeT "**.x") true =
      Except.ok [Json.num 7, Json.num 1] ∧
    Json.lookupAL [("b", Json.obj [("x", Json.num 1)]), ("x", Json.num 7)] "x" =
      some (Json.num 7) := by
  have ht : tokenizeT "**.x" =
      [DotToken.wildcard Wildcard.untilNext, DotToken.property "x"] := by rfl
  have hr : retok [DotToken.property "x"] = [DotToken.property "x"] := by rfl
  refine ⟨?_, ?_, ?_, by rfl⟩ <;>
    simp [ht, hr, exC3doc, exC3patched, navigate, patch_mut,
      traverse_until_next_helper, tunFields, tunElems, tunLookup, tunIndex,
      patch_fields, patch_elems, Json.lookupAL, Json.insertAL, Except.map,
      Except.bind]

/-! ### C1 -/

/-- Table entries whose endpoint name differs from a JSON's name leave that
JSON untouched. -/
theorem apply_table_to_json_skip {n : String}
    {table : List (String × List (String × Json))} {j : Json}
    (h : ∀ entry ∈ table, entry.1 ≠ n) : apply_table_to_json j n table = Except.ok j := by
  induction table with
  | nil => rfl
  | cons entry rest ih =>
      have hne : entry.1 ≠ n := h entry (List.mem_cons_self entry rest)
      simp [apply_table_to_json, hne]
      exact ih (fun e he => h e (List.mem_cons_of_mem entry he))

/-- C1 counterexample: with the single raw endpoint JSON `Help`, every
other patch-table entry (`Subscribe`, `Unsubscribe`, ..., fourteen names)
matches NO endpoint in the list, yet applying the table succeeds (the
`Help` entry is applied, the rest are silently skipped) instead of being a
hard error as the claim requires. -/
theorem C1_counterexample :
    apply_endpoint_patches [exHelpJson] PATCH_TABLE =
      some (Except.ok [exHelpJsonPatched]) := by
  have h1 : tokenizeT "method" = [DotToken.property "method"] := by rfl
  have h2 : tokenizeT "path" = [DotToken.property "path"] := by rfl
  simp [apply_endpoint_patches, apply_table_to_json, apply_patch_list,
    json_name, PATCH_TABLE, exHelpJson, exHelpJsonPatched, h1, h2,
    patch_mut, Json.lookupAL, Json.insertAL, Except.bind]

/-- C1 amended: a patch-table correction whose endpoint name matches no
endpoint JSON in the list is silently skipped — when every endpoint JSON
carries a string `name` that matches no table entry, applying the table
succeeds and returns the list unchanged (no hard error). -/
theorem C1_amended (jsons : List Json)
    (table : List (String × List (String × Json)))
    (h : ∀ j ∈ jsons, ∃ n, json_name j = some n ∧ ∀ entry ∈ table, entry.1 ≠ n) :
    apply_endpoint_patches jsons table = some (Except.ok jsons) := by
  induction jsons with
  | nil => rfl
  | cons j rest ih =>
      obtain ⟨n, hn, hentries⟩ := h j (List.mem_cons_self j rest)
      have hskip := apply_table_to_json_skip (j := j) hentries
      have hrest := ih (fun x hx => h x (List.mem_cons_of_mem j hx))
      simp [apply_endpoint_patches, hn, hskip, hrest]

/-- C1 amended, witness: an endpoint named `GetSomethingElse` matches no
entry of the real patch table; the table applies as a no-op. -/
theorem C1_amended_witness :
    apply_endpoint_patches [exUnknownJson] PATCH_TABLE =
      some (Except.ok [exUnknownJson]) :=
  C1_amended [exUnknownJson] PATCH_TABLE
    (by
      intro j hj
      rw [List.mem_singleton] at hj
      subst hj
      exact ⟨"GetSomethingElse", by rfl, by decide⟩)

/-! ### C6 -/

/-- C6 counterexample: `resolve_paths` on a single endpoint whose
introspected `path` is null returns `Ok` with the document unchanged — the
endpoint is merely skipped (with a log line), not a hard error aborting
the run. -/
theorem C6_counterexample :
    resolve_paths exSpec [exEndpointNoPath] = Except.ok exSpec ∧
    exSpec.paths = [] := ⟨rfl, rfl⟩

/-- C6 amended: `Endpoint::operation` itself does require a non-null path
(it can never return `Ok` for a null-path endpoint, erring with
`EndpointPathCannotBeNone`), but `resolve_paths` filters null-path
endpoints out BEFORE conversion, so at the document level a null path is a
skip, not a hard error. -/
theorem C6_amended (spec : OpenApiSpec) (e : Endpoint) (rest : List Endpoint)
    (h : e.path = none) :
    resolve_paths spec (e :: rest) = resolve_paths spec rest ∧
    ∀ op, Endpoint.operation e spec ≠ Except.ok op := by
  constructor
  · simp [resolve_paths, h]
  · intro op hop
    unfold Endpoint.operation at hop
    obtain ⟨params0, hA, hop⟩ := exceptBind_ok hop
    obtain ⟨pb, hB, hop⟩ := exceptBind_ok hop
    obtain ⟨resp, hC, hop⟩ := exceptBind_ok hop
    rw [h] at hop
    simp at hop

/-- C6 amended, witness (the skip half at a concrete input). -/
theorem C6_amended_witness :
    resolve_paths exSpec [exEndpointNoPath] = resolve_paths exSpec [] :=
  (C6_amended exSpec exEndpointNoPath [] (by rfl)).1

/-! ### C9 -/

/-- C9 counterexample: an introspected type with BOTH `fields` and
`values` empty is not a fail-fast logic error: conversion returns the
recoverable `PrivateApiTypeNotSupported`, and `resolve_components`
silently skips it, leaving the document unchanged. -/
theorem C9_counterexample :
    type_to_schema exTypeBothEmpty =
      some (Except.error ParseErr.privateApiTypeNotSupported) ∧
    resolve_components exSpec [exTypeBothEmpty] = some (Except.ok exSpec) :=
  ⟨rfl, rfl⟩

/-- C9 amended: both `fields` and `values` NON-empty is indeed a fail-fast
logic error (the `assert!` panics, modelled by `none`); both EMPTY instead
yields the recoverable `ParseError::PrivateApiTypeNotSupported`, which
`resolve_components` treats as a silent skip. -/
theorem C9_amended (t : HelpType) :
    (t.fields ≠ [] → t.values ≠ [] → type_to_schema t = none) ∧
    (t.fields = [] → t.values = [] →
      type_to_schema t =
        some (Except.error ParseErr.privateApiTypeNotSupported)) ∧
    (∀ (spec : OpenApiSpec) (rest : List HelpType), t.fields = [] → t.values = [] →
      resolve_components spec (t :: rest) = resolve_components spec rest) := by
  refine ⟨?_, ?_, ?_⟩
  · intro h1 h2
    obtain ⟨f, fs, hf⟩ := List.exists_cons_of_ne_nil h1
    obtain ⟨v, vs, hv⟩ := List.exists_cons_of_ne_nil h2
    simp [type_to_schema, hf, hv]
  · intro h1 h2
    simp [type_to_schema, h1, h2, resolve_type_fields, Except.bind]
  · intro spec rest h1 h2
    have hts : type_to_schema t =
        some (Except.error ParseErr.privateApiTypeNotSupported) := by
      simp [type_to_schema, h1, h2, resolve_type_fields, Except.bind]
    simp [resolve_components, hts]

/-- C9 amended, witness: the both-non-empty type panics, the both-empty
type is skipped. -/
theorem C9_amended_witness :
    type_to_schema exTypeBothFull = none ∧
    resolve_components exSpec [exTypeBothEmpty] = resolve_components exSpec [] :=
  ⟨(C9_amended exTypeBothFull).1 (by simp [exTypeBothFull]) (by simp [exTypeBothFull]),
   (C9_amended exTypeBothEmpty).2.2 exSpec [] (by rfl) (by rfl)⟩

/-! ### C10 -/

/-- `parse_token` never constructs the `SyntaxError` (its only error
branch is commented out in the source). -/
theorem parse_token_never_error (seg : String) (e : SyntaxErr) :
    parse_token seg ≠ some (Except.error e) := by
  intro h
  unfold parse_token at h
  split at h
  · split at h <;> simp_all
  · split at h
    · simp_all
    · split at h <;> simp_all

/-- Every segment other than the single character `"` parses to a token
(the `"` segment is the slice panic). -/
theorem parse_token_ok_of_ne (seg : String) (h : seg ≠ "\"") :
    ∃ t, parse_token seg = some (Except.ok t) := by
  unfold parse_token
  by_cases hq : (starts_with seg "\"" && ends_with seg "\"") = true
  · rw [if_pos hq]
    by_cases hl : seg.data.length = 1
    · exfalso
      apply h
      have hpre : ['\"'] <+: seg.data := by
        have h2 := hq
        simp [starts_with] at h2
        exact h2.1
      obtain ⟨l, hl2⟩ := hpre
      have hln : seg.data = ['\"'] := by
        cases hx : l with
        | nil => rw [hx] at hl2; simpa using hl2.symm
        | cons a t =>
            rw [hx] at hl2
            rw [← hl2] at hl
            simp at hl
      cases seg with
      | mk data =>
          simp at hln
          subst hln
          rfl
    · rw [if_neg hl]
      exact ⟨_, rfl⟩
  · rw [if_neg hq]
    match hw : parse_wild_once_or_until_next seg with
    | some w => exact ⟨w, rfl⟩
    | none =>
        by_cases hu : isUsizeLit seg = true
        · rw [if_pos hu]; exact ⟨_, rfl⟩
        · rw [if_neg hu]; exact ⟨_, rfl⟩

/-- The segment folder of `tokenize` never yields a `SyntaxError`. -/
theorem tokenize_go_never_error (segs : List String) (e : SyntaxErr) :
    tokenize.go segs ≠ some (Except.error e) := by
  induction segs with
  | nil => simp [tokenize.go]
  | cons seg rest ih =>
      intro h
      unfold tokenize.go at h
      split at h
      · simp_all
      · exact parse_token_never_error seg _ (by assumption)
      · split at h <;> simp_all
  
/-- The segment folder yields one token per segment when no segment is the
panicking `"`. -/
theorem tokenize_go_ok (segs : List String) (h : ∀ seg ∈ segs, seg ≠ "\"") :
    ∃ toks, tokenize.go segs = some (Except.ok toks) ∧
      toks.length = segs.length := by
  induction segs with
  | nil => exact ⟨[], rfl, rfl⟩
  | cons seg rest ih =>
      obtain ⟨t, ht⟩ :=
        parse_token_ok_of_ne seg (h seg (List.mem_cons_self seg rest))
      obtain ⟨toks, htoks, hlen⟩ :=
        ih (fun x hx => h x (List.mem_cons_of_mem seg hx))
      refine ⟨t :: toks, ?_, by simp [hlen]⟩
      unfold tokenize.go
      rw [ht, htoks]

/-- C10 counterexample: tokenizing the one-character input `"` does not
return `Ok` — the quoted-property slice `segment[1..0]` panics. -/
theorem C10_counterexample : tokenize "\"" = none := rfl

/-- C10 amended: `tokenize` never returns a `SyntaxError` (the sole
variant, wildcard-inside-union, is unreachable), and on every input none
of whose dot-separated segments is the single character `"` it returns
`Ok` with one token per segment; a segment that is exactly `"` instead
panics (slice index out of range), so "returns Ok" does not hold for EVERY
input. -/
theorem C10_amended (s : String) :
    (∀ e, tokenize s ≠ some (Except.error e)) ∧
    ((∀ seg ∈ split_on_char s '.', seg ≠ "\"") →
      ∃ toks, tokenize s = some (Except.ok toks) ∧
        toks.length = (split_on_char s '.').length) := by
  constructor
  · intro e
    unfold tokenize
    exact tokenize_go_never_error _ e
  · intro h
    unfold tokenize
    exact tokenize_go_ok _ h

/-- C10 amended, witness: the spec's own round-trip example. -/
theorem C10_amended_witness :
    tokenize "a.1.*.d" =
      some (Except.ok [DotToken.property "a", DotToken.index 1,
        DotToken.wildcard Wildcard.once, DotToken.property "d"]) ∧
    tokenize "a.1.*.d" ≠ some (Except.error SyntaxErr.wildcardInUnion) :=
  ⟨by rfl, (C10_amended "a.1.*.d").1 SyntaxErr.wildcardInUnion⟩

/-! ### C5 -/

/-- C5 counterexample: `navigate` with `in_wildcard = true` is NOT
error-free — a wildcard token over a scalar node is a terminal error even
inside a wildcard expansion; and a missing property does not make the
branch "contribute no results": `continue` skips only the TOKEN, so on
`{"b": 5}` with path `a.b` the missing `a` is skipped in place and the
leftover `b` still finds (and returns) `5`. -/
theorem C5_counterexample :
    navigate (Json.num 5) [DotToken.wildcard Wildcard.once] true =
      Except.error (ParseErr.json "wildcard expected an object or array at path") ∧
    navigate (Json.obj [("b", Json.num 5)])
      [DotToken.property "a", DotToken.property "b"] true =
      Except.ok [Json.num 5] := by
  constructor
  · simp [navigate]
  · simp [navigate, Json.lookupAL]

/-- C5 amended: with `in_wildcard = true`, a missing property/index or a
container mismatch at a `Property`/`Index` token is not an error, but the
TOKEN (not the branch) is skipped: the loop continues with the remaining
path at the same node (so a wildcard-free navigate with `in_wildcard =
true` always returns `Ok`, though skipped tokens may still let later
tokens contribute results); a wildcard token over a non-container node is
an error even when `in_wildcard = true`; with `in_wildcard = false` the
same missing/mismatch conditions are terminal errors. -/
theorem C5_amended :
    (∀ (d : Json) (toks : List DotToken),
      (∀ t ∈ toks, ∀ w, t ≠ DotToken.wildcard w) →
      ∃ r, navigate d toks true = Except.ok r) ∧
    (∀ (fields : List (String × Json)) (prop : String) (rest : List DotToken),
      Json.lookupAL fields prop = none →
      navigate (Json.obj fields) (DotToken.property prop :: rest) true =
        navigate (Json.obj fields) rest true ∧
      navigate (Json.obj fields) (DotToken.property prop :: rest) false =
        Except.error (ParseErr.json "property not found in path")) ∧
    (∀ (elems : List Json) (i : Nat) (rest : List DotToken),
      elems.get? i = none →
      navigate (Json.arr elems) (DotToken.index i :: rest) true =
        navigate (Json.arr elems) rest true ∧
      navigate (Json.arr elems) (DotToken.index i :: rest) false =
        Except.error (ParseErr.json "index not found at path")) ∧
    (∀ (d : Json) (prop : String) (rest : List DotToken),
      (∀ fs, d ≠ Json.obj fs) →
      navigate d (DotToken.property prop :: rest) true = navigate d rest true ∧
      navigate d (DotToken.property prop :: rest) false =
        Except.error (ParseErr.json "expected an object at path")) ∧
    (∀ (d : Json) (i : Nat) (rest : List DotToken),
      (∀ es, d ≠ Json.arr es) →
      navigate d (DotToken.index i :: rest) true = navigate d rest true ∧
      navigate d (DotToken.index i :: rest) false =
        Except.error (ParseErr.json "expected an array at path")) ∧
    (∀ (d : Json) (w : Wildcard) (rest : List DotToken),
      (∀ fs, d ≠ Json.obj fs) → (∀ es, d ≠ Json.arr es) →
      navigate d (DotToken.wildcard w :: rest) true =
        Except.error (ParseErr.json "wildcard expected an object or array at path")) := by
  refine ⟨?_, ?_, ?_, ?_, ?_, ?_⟩
  · intro d toks
    induction toks generalizing d with
    | nil => intro _; exact ⟨[], by simp [navigate]⟩
    | cons t rest ih =>
        intro hw
        have hwrest : ∀ t ∈ rest, ∀ w, t ≠ DotToken.wildcard w :=
          fun x hx => hw x (List.mem_cons_of_mem t hx)
        cases t with
        | property prop =>
            cases d with
            | obj fields =>
                cases hl : Json.lookupAL fields prop with
                | some next =>
                    by_cases hrest : rest = []
                    · exact ⟨[next], by simp [navigate, hrest]; split <;> simp_all⟩
                    · obtain ⟨r, hr⟩ := ih next hwrest
                      exact ⟨r, by simp [navigate, hrest]; split <;> simp_all⟩
                | none =>
                    obtain ⟨r, hr⟩ := ih (Json.obj fields) hwrest
                    exact ⟨r, by simp [navigate]; split <;> simp_all⟩
            | null => obtain ⟨r, hr⟩ := ih Json.null hwrest
                      exact ⟨r, by simp [navigate, hr]⟩
            | bool b => obtain ⟨r, hr⟩ := ih (Json.bool b) hwrest
                        exact ⟨r, by simp [navigate, hr]⟩
            | num n => obtain ⟨r, hr⟩ := ih (Json.num n) hwrest
                       exact ⟨r, by simp [navigate, hr]⟩
            | str ss => obtain ⟨r, hr⟩ := ih (Json.str ss) hwrest
                        exact ⟨r, by simp [navigate, hr]⟩
            | arr elems => obtain ⟨r, hr⟩ := ih (Json.arr elems) hwrest
                           exact ⟨r, by simp [navigate, hr]⟩
        | index i =>
            cases d with
            | arr elems =>
                cases hg : elems.get? i with
                | some next =>
                    by_cases hrest : rest = []
                    · exact ⟨[next], by simp [navigate, hrest]; split <;> simp_all⟩
                    · obtain ⟨r, hr⟩ := ih next hwrest
                      exact ⟨r, by simp [navigate, hrest]; split <;> simp_all⟩
                | none =>
                    obtain ⟨r, hr⟩ := ih (Json.arr elems) hwrest
                    exact ⟨r, by
                      simp [navigate]
                      split <;> simp_all [List.getElem?_eq_none]⟩
            | null => obtain ⟨r, hr⟩ := ih Json.null hwrest
                      exact ⟨r, by simp [navigate, hr]⟩
            | bool b => obtain ⟨r, hr⟩ := ih (Json.bool b) hwrest
                        exact ⟨r, by simp [navigate, hr]⟩
            | num n => obtain ⟨r, hr⟩ := ih (Json.num n) hwrest
                       exact ⟨r, by simp [navigate, hr]⟩
            | str ss => obtain ⟨r, hr⟩ := ih (Json.str ss) hwrest
                        exact ⟨r, by simp [navigate, hr]⟩
            | obj fields => obtain ⟨r, hr⟩ := ih (Json.obj fields) hwrest
                            exact ⟨r, by simp [navigate, hr]⟩
        | wildcard w =>
            exact absurd rfl (hw (DotToken.wildcard w) (List.mem_cons_self _ _) w)
  · intro fields prop rest hl
    exact ⟨by simp [navigate]; split <;> simp_all,
           by simp [navigate]; split <;> simp_all⟩
  · intro elems i rest hg
    exact ⟨by simp [navigate]; split <;> simp_all [List.getElem?_eq_none],
           by simp [navigate]; split <;> simp_all [List.getElem?_eq_none]⟩
  · intro d prop rest hobj
    cases d with
    | obj fields => exact absurd rfl (hobj fields)
    | null => exact ⟨by simp [navigate], by simp [navigate]⟩
    | bool b => exact ⟨by simp [navigate], by simp [navigate]⟩
    | num n => exact ⟨by simp [navigate], by simp [navigate]⟩
    | str ss => exact ⟨by simp [navigate], by simp [navigate]⟩
    | arr elems => exact ⟨by simp [navigate], by simp [navigate]⟩
  · intro d i rest harr
    cases d with
    | arr elems => exact absurd rfl (harr elems)
    | null => exact ⟨by simp [navigate], by simp [navigate]⟩
    | bool b => exact ⟨by simp [navigate], by simp [navigate]⟩
    | num n => exact ⟨by simp [navigate], by simp [navigate]⟩
    | str ss => exact ⟨by simp [navigate], by simp [navigate]⟩
    | obj fields => exact ⟨by simp [navigate], by simp [navigate]⟩
  · intro d w rest hobj harr
    cases d with
    | obj fields => exact absurd rfl (hobj fields)
    | arr elems => exact absurd rfl (harr elems)
    | null => cases w <;> simp [navigate]
    | bool b => cases w <;> simp [navigate]
    | num n => cases w <;> simp [navigate]
    | str ss => cases w <;> simp [navigate]

/-- C5 amended, witness: wildcard-free navigation with `in_wildcard =
true` over a document missing the first property returns `Ok` (and the
skipped token lets the trailing token match at the root). -/
theorem C5_amended_witness :
    navigate (Json.obj [("b", Json.num 5)])
      [DotToken.property "a", DotToken.property "b"] true =
      navigate (Json.obj [("b", Json.num 5)]) [DotToken.property "b"] true :=
  (C5_amended.2.1 [("b", Json.num 5)] "a" [DotToken.property "b"] (by rfl)).1

/-! ### C2 -/

/-- `"other"` does not carry the `"Plugin"` prefix. -/
theorem plugin_prefix_ne_other {t : String} (h : starts_with t "Plugin" = true) :
    t ≠ "other" := by
  intro he
  subst he
  simp [starts_with] at h

/-- C2 (confirmed): the `Tag` partial order, rules applied in the claim's
order — every non-`Plugin` tag before every `Plugin` tag; among `Plugin`
tags non-lol before lol and otherwise alphabetical; among the remaining
(non-Plugin) pairs, `other` orders after every other tag, two `other`s are
incomparable, and all remaining pairs are alphabetical. -/
theorem C2_tag_order (a b : Tag) :
    (starts_with a.name "Plugin" = false → starts_with b.name "Plugin" = true →
      tag_partial_cmp a b = some Ordering.lt) ∧
    (starts_with a.name "Plugin" = true → starts_with b.name "Plugin" = false →
      tag_partial_cmp a b = some Ordering.gt) ∧
    (starts_with a.name "Plugin" = true → starts_with b.name "Plugin" = true →
      (starts_with a.name "Plugin lol" = true →
        starts_with b.name "Plugin lol" = false →
        tag_partial_cmp a b = some Ordering.gt) ∧
      (starts_with a.name "Plugin lol" = false →
        starts_with b.name "Plugin lol" = true →
        tag_partial_cmp a b = some Ordering.lt) ∧
      (starts_with a.name "Plugin lol" = starts_with b.name "Plugin lol" →
        tag_partial_cmp a b = some (cmpStr a.name b.name))) ∧
    (starts_with a.name "Plugin" = false → starts_with b.name "Plugin" = false →
      (a.name = "other" → b.name ≠ "other" →
        tag_partial_cmp a b = some Ordering.gt) ∧
      (a.name ≠ "other" → b.name = "other" →
        tag_partial_cmp a b = some Ordering.lt) ∧
      (a.name = "other" → b.name = "other" → tag_partial_cmp a b = none) ∧
      (a.name ≠ "other" → b.name ≠ "other" →
        tag_partial_cmp a b = some (cmpStr a.name b.name))) := by
  refine ⟨?_, ?_, ?_, ?_⟩
  · intro ha hb
    simp [tag_partial_cmp, ha, hb]
  · intro ha hb
    simp [tag_partial_cmp, ha, hb]
  · intro ha hb
    have hao : (a.name == "other") = false := by
      simp [plugin_prefix_ne_other ha]
    have hbo : (b.name == "other") = false := by
      simp [plugin_prefix_ne_other hb]
    refine ⟨?_, ?_, ?_⟩
    · intro hal hbl
      simp [tag_partial_cmp, ha, hb, hal, hbl]
    · intro hal hbl
      simp [tag_partial_cmp, ha, hb, hal, hbl]
    · intro heq
      cases hal : starts_with a.name "Plugin lol" with
      | true =>
          have hbl : starts_with b.name "Plugin lol" = true := by
            rw [← heq, hal]
          simp [tag_partial_cmp, ha, hb, hal, hbl, hao, hbo]
      | false =>
          have hbl : starts_with b.name "Plugin lol" = false := by
            rw [← heq, hal]
          simp [tag_partial_cmp, ha, hb, hal, hbl, hao, hbo]
  · intro ha hb
    have hal : starts_with a.name "Plugin lol" = false := by
      cases hx : starts_with a.name "Plugin lol" with
      | true =>
          exfalso
          have : ("Plugin" : String).data.isPrefixOf a.name.data := by
            have hpre := List.isPrefixOf_iff_prefix.mp
              (show ("Plugin lol" : String).data.isPrefixOf a.name.data from hx)
            have hstep : ("Plugin" : String).data <+: ("Plugin lol" : String).data := by
              decide
            exact List.isPrefixOf_iff_prefix.mpr (hstep.trans hpre)
          rw [show starts_with a.name "Plugin" = ("Plugin" : String).data.isPrefixOf a.name.data from rfl] at ha
          rw [this] at ha
          exact Bool.true_eq_false.mp ha
      | false => rfl
    have hbl : starts_with b.name "Plugin lol" = false := by
      cases hx : starts_with b.name "Plugin lol" with
      | true =>
          exfalso
          have : ("Plugin" : String).data.isPrefixOf b.name.data := by
            have hpre := List.isPrefixOf_iff_prefix.mp
              (show ("Plugin lol" : String).data.isPrefixOf b.name.data from hx)
            have hstep : ("Plugin" : String).data <+: ("Plugin lol" : String).data := by
              decide
            exact List.isPrefixOf_iff_prefix.mpr (hstep.trans hpre)
          rw [show starts_with b.name "Plugin" = ("Plugin" : String).data.isPrefixOf b.name.data from rfl] at hb
          rw [this] at hb
          exact Bool.true_eq_false.mp hb
      | false => rfl
    have hOtherP : starts_with "other" "Plugin" = false := by decide
    have hOtherL : starts_with "other" "Plugin lol" = false := by decide
    refine ⟨?_, ?_, ?_, ?_⟩
    · intro hao hbo
      have hbo' : (b.name == "other") = false := beq_eq_false_iff_ne.mpr hbo
      simp [tag_partial_cmp, ha, hb, hal, hbl, hao, hbo', hOtherP, hOtherL]
    · intro hao hbo
      have hao' : (a.name == "other") = false := beq_eq_false_iff_ne.mpr hao
      simp [tag_partial_cmp, ha, hb, hal, hbl, hao', hbo, hOtherP, hOtherL]
    · intro hao hbo
      simp [tag_partial_cmp, ha, hb, hal, hbl, hao, hbo, hOtherP, hOtherL]
    · intro hao hbo
      have hao' : (a.name == "other") = false := beq_eq_false_iff_ne.mpr hao
      have hbo' : (b.name == "other") = false := beq_eq_false_iff_ne.mpr hbo
      simp [tag_partial_cmp, ha, hb, hal, hbl, hao', hbo', hOtherP, hOtherL]

/-- C2 witness: a plain tag orders before a lol-plugin tag, and two
`other` tags are incomparable. -/
theorem C2_tag_order_witness :
    tag_partial_cmp ⟨"alpha", none, none⟩ ⟨"Plugin lol-chat", none, none⟩ =
      some Ordering.lt ∧
    tag_partial_cmp ⟨"other", none, none⟩ ⟨"other", none, none⟩ = none :=
  ⟨(C2_tag_order ⟨"alpha", none, none⟩ ⟨"Plugin lol-chat", none, none⟩).1
      (by decide) (by decide),
   ((C2_tag_order ⟨"other", none, none⟩ ⟨"other", none, none⟩).2.2.2
      (by decide) (by decide)).2.2.1 rfl rfl⟩

/-! ### C7 -/

/-- `as_query_param` always builds a query parameter named after the
argument. -/
theorem as_query_param_ok {arg : Argument} {p : Param}
    (h : Argument.as_query_param arg = Except.ok p) :
    paramName p = arg.info.name ∧ p.isQuery = true := by
  unfold Argument.as_query_param at h
  obtain ⟨schema, _, hp⟩ := exceptMap_ok h
  subst hp
  exact ⟨rfl, rfl⟩

/-- Every parameter produced by the single-query-verb argument expansion
is a query parameter. -/
theorem query_params_of_arg_ok {spec : OpenApiSpec} {arg : Argument}
    {l : List Param} (h : query_params_of_arg spec arg = Except.ok l) :
    ∀ p ∈ l, p.isQuery = true := by
  unfold query_params_of_arg at h
  obtain ⟨schema, _, h⟩ := exceptBind_ok h
  obtain ⟨schemaR, _, h⟩ := exceptBind_ok h
  intro p hp
  match hty : schemaR.ty with
  | TypedSchema.object props ap req =>
      rw [hty] at h
      simp at h
      subst h
      obtain ⟨nv, _, hnv⟩ := List.mem_map.mp hp
      subst hnv
      rfl
  | TypedSchema.array i =>
      rw [hty] at h
      obtain ⟨q, hq, hl⟩ := exceptMap_ok h
      subst hl
      rw [List.mem_singleton] at hp
      subst hp
      exact (as_query_param_ok hq).2
  | TypedSchema.string v =>
      rw [hty] at h
      obtain ⟨q, hq, hl⟩ := exceptMap_ok h
      subst hl
      rw [List.mem_singleton] at hp
      subst hp
      exact (as_query_param_ok hq).2
  | TypedSchema.integer f =>
      rw [hty] at h
      obtain ⟨q, hq, hl⟩ := exceptMap_ok h
      subst hl
      rw [List.mem_singleton] at hp
      subst hp
      exact (as_query_param_ok hq).2
  | TypedSchema.number f =>
      rw [hty] at h
      obtain ⟨q, hq, hl⟩ := exceptMap_ok h
      subst hl
      rw [List.mem_singleton] at hp
      subst hp
      exact (as_query_param_ok hq).2
  | TypedSchema.boolean =>
      rw [hty] at h
      obtain ⟨q, hq, hl⟩ := exceptMap_ok h
      subst hl
      rw [List.mem_singleton] at hp
      subst hp
      exact (as_query_param_ok hq).2
  | TypedSchema.ref t =>
      rw [hty] at h
      obtain ⟨q, hq, hl⟩ := exceptMap_ok h
      subst hl
      rw [List.mem_singleton] at hp
      subst hp
      exact (as_query_param_ok hq).2

/-- C7 (confirmed): query/body disambiguation of `Endpoint::operation` —
with two or more non-path arguments every one of them becomes a query
parameter and there is no request body, regardless of verb; with exactly
one non-path argument and a GET/DELETE/HEAD/OPTIONS/TRACE verb it only
produces query parameters (no body); with exactly one non-path argument
and any other verb it becomes the request body and no query parameter is
produced. -/
theorem C7_query_body_disambiguation (e : Endpoint) (spec : OpenApiSpec)
    (op : Operation) (h : Endpoint.operation e spec = Except.ok op) :
    (2 ≤ (e.arguments.drop e.path_params.length).length →
      op.request_body = none ∧
      (op.parameters.drop e.path_params.length).map paramName =
        (e.arguments.drop e.path_params.length).map (fun a => a.info.name) ∧
      ∀ p ∈ op.parameters.drop e.path_params.length, p.isQuery = true) ∧
    ((e.arguments.drop e.path_params.length).length = 1 →
      (e.method = some HttpMethod.get ∨ e.method = some HttpMethod.delete ∨
       e.method = some HttpMethod.head ∨ e.method = some HttpMethod.options ∨
       e.method = some HttpMethod.trace) →
      op.request_body = none ∧
      ∀ p ∈ op.parameters.drop e.path_params.length, p.isQuery = true) ∧
    (∀ m, (e.arguments.drop e.path_params.length).length = 1 →
      e.method = some m →
      m ≠ HttpMethod.get → m ≠ HttpMethod.delete → m ≠ HttpMethod.head →
      m ≠ HttpMethod.options → m ≠ HttpMethod.trace →
      (∃ rb, op.request_body = some rb) ∧
      op.parameters.length = e.path_params.length) := by
  unfold Endpoint.operation at h
  obtain ⟨params0, hA, h⟩ := exceptBind_ok h
  have hk : params0.length = e.path_params.length := exceptMapM_ok_length hA
  obtain ⟨pb, hB, h⟩ := exceptBind_ok h
  obtain ⟨resp, hC, h⟩ := exceptBind_ok h
  cases hp : e.path with
  | none => rw [hp] at h; simp at h
  | some path =>
      rw [hp] at h
      simp at h
      have hparams : op.parameters = pb.1 := by rw [← h]
      have hbody : op.request_body = pb.2 := by rw [← h]
      refine ⟨?_, ?_, ?_⟩
      · intro hlen
        rw [if_pos (by omega)] at hB
        obtain ⟨qs, hqs, hpb⟩ := exceptMap_ok hB
        rw [← hk] at hqs
        refine ⟨by rw [hbody, ← hpb], ?_, ?_⟩
        · rw [hparams, ← hpb]
          simp only [← hk, List.drop_left]
          exact exceptMapM_ok_map_eq (fun a b hb => (as_query_param_ok hb).1) hqs
        · rw [hparams, ← hpb]
          simp only [← hk, List.drop_left]
          exact exceptMapM_ok_forall (fun a b hb => (as_query_param_ok hb).2) hqs
      · intro hlen hm
        rw [if_neg (by omega)] at hB
        have hBq :
            (exceptMapM (query_params_of_arg spec)
              (e.arguments.drop params0.length)).map
              (fun qss => (params0 ++ qss.flatten,
                (none : Option RequestBody))) = Except.ok pb := by
          rcases hm with hm | hm | hm | hm | hm <;> rw [hm] at hB <;> exact hB
        obtain ⟨qss, hqss, hpb⟩ := exceptMap_ok hBq
        refine ⟨by rw [hbody, ← hpb], ?_⟩
        rw [hparams, ← hpb]
        simp only [← hk, List.drop_left]
        intro p hpmem
        obtain ⟨l, hl, hpl⟩ := List.mem_flatten.mp hpmem
        have hall := exceptMapM_ok_forall
          (fun a b hb => query_params_of_arg_ok hb) hqss
        exact hall l hl p hpl
      · intro m hlen hm h1 h2 h3 h4 h5
        rw [if_neg (by omega), hm] at hB
        have hBb :
            (match e.arguments.get? params0.length with
             | some body_type =>
                 (SchemaObject.try_from_data_type body_type.ty).map
                   (fun schema =>
                     (params0,
                      some (RequestBody.default.with_content "application/json"
                        ⟨schema⟩)))
             | none => Except.ok (params0, none)) = Except.ok pb := by
          cases m <;> first | exact hB | simp_all
        have hget : ∃ bt, e.arguments.get? params0.length = some bt := by
          have hne : e.arguments.drop params0.length ≠ [] := by
            rw [hk]
            intro hnil
            rw [hnil] at hlen
            simp at hlen
          cases hg : e.arguments.get? params0.length with
          | some bt => exact ⟨bt, rfl⟩
          | none =>
              exfalso
              apply hne
              have := List.getElem?_eq_none_iff.mp (by simpa using hg)
              exact List.drop_eq_nil_of_le this
        obtain ⟨bt, hbt⟩ := hget
        rw [hbt] at hBb
        obtain ⟨schema, _, hpb⟩ := exceptMap_ok hBb
        refine ⟨⟨_, by rw [hbody, ← hpb]⟩, ?_⟩
        rw [hparams, ← hpb]
        simpa using hk

/-- C7 witness: the spec's own examples — a GET endpoint with two non-path
arguments yields two query parameters and no body; a POST endpoint with
one non-path argument yields a body and only path parameters. -/
theorem C7_witness :
    (∃ op, Endpoint.operation exEndpointTwoGet exSpec = Except.ok op ∧
      op.request_body = none ∧
      (op.parameters.drop 0).map paramName = ["a", "b"]) ∧
    (∃ op, Endpoint.operation exEndpointOnePost exSpec = Except.ok op ∧
      (∃ rb, op.request_body = some rb) ∧ op.parameters.length = 0) := by
  constructor
  · cases hop : Endpoint.operation exEndpointTwoGet exSpec with
    | error err =>
        exfalso
        revert hop
        simp [exEndpointTwoGet, mkEndpoint, mkArg, Endpoint.operation,
          exceptMapM, Argument.as_query_param, SchemaObject.try_from_data_type,
          DataType.string, DataType.is_generic_object, try_parse_item_type,
          operation_response, DataType.default, Except.bind, Except.map,
          SchemaObject.object_of, SchemaObject.string]
    | ok op =>
        have hc := C7_query_body_disambiguation exEndpointTwoGet exSpec op hop
        have h1 := hc.1 (by simp [exEndpointTwoGet, mkEndpoint, mkArg])
        refine ⟨op, rfl, h1.1, ?_⟩
        have := h1.2.1
        simpa [exEndpointTwoGet, mkEndpoint, mkArg] using this
  · cases hop : Endpoint.operation exEndpointOnePost exSpec with
    | error err =>
        exfalso
        revert hop
        simp [exEndpointOnePost, mkEndpoint, mkArg, Endpoint.operation,
          exceptMapM, Argument.as_query_param, SchemaObject.try_from_data_type,
          DataType.string, DataType.is_generic_object, try_parse_item_type,
          operation_response, DataType.default, Except.bind, Except.map,
          SchemaObject.object_of, SchemaObject.string,
          RequestBody.with_content, RequestBody.default]
    | ok op =>
        have hc := C7_query_body_disambiguation exEndpointOnePost exSpec op hop
        have h3 := hc.2.2 HttpMethod.post
          (by simp [exEndpointOnePost, mkEndpoint, mkArg]) rfl
          (by simp) (by simp) (by simp) (by simp) (by simp)
        exact ⟨op, rfl, h3.1, by simpa [exEndpointOnePost, mkEndpoint] using h3.2⟩

/-! ### C4 -/

theorem Json.lookup_insertAL_self (l : List (String × Json)) (k : String)
    (v : Json) : Json.lookupAL (Json.insertAL l k v) k = some v := by
  induction l with
  | nil => simp [Json.insertAL, Json.lookupAL]
  | cons kv rest ih =>
      obtain ⟨k', v'⟩ := kv
      by_cases hk : k' = k
      · simp [Json.insertAL, Json.lookupAL, hk]
      · simp [Json.insertAL, Json.lookupAL, hk, ih]

theorem Json.insertAL_idem (l : List (String × Json)) (k : String) (v : Json) :
    Json.insertAL (Json.insertAL l k v) k v = Json.insertAL l k v := by
  induction l with
  | nil => simp [Json.insertAL]
  | cons kv rest ih =>
      obtain ⟨k', v'⟩ := kv
      by_cases hk : k' = k
      · simp [Json.insertAL, hk]
      · simp [Json.insertAL, hk, ih]

theorem Json.removeAL_idem (l : List (String × Json)) (k : String) :
    Json.removeAL (Json.removeAL l k) k = Json.removeAL l k := by
  simp [Json.removeAL, List.filter_filter]

theorem Json.insertAL_append_self {l : List (String × Json)} {k : String}
    (x y : Json) (h : Json.lookupAL l k = none) :
    Json.insertAL (l ++ [(k, x)]) k y = l ++ [(k, y)] := by
  induction l with
  | nil => simp [Json.insertAL]
  | cons kv rest ih =>
      obtain ⟨k', v'⟩ := kv
      by_cases hk : k' = k
      · simp [Json.lookupAL, hk] at h
      · simp [Json.lookupAL, hk] at h
        simp [Json.insertAL, hk, ih h]

theorem Json.lookup_append_self {l : List (String × Json)} {k : String}
    (v : Json) (h : Json.lookupAL l k = none) :
    Json.lookupAL (l ++ [(k, v)]) k = some v := by
  induction l with
  | nil => simp [Json.lookupAL]
  | cons kv rest ih =>
      obtain ⟨k', v'⟩ := kv
      by_cases hk : k' = k
      · simp [Json.lookupAL, hk] at h
      · simp [Json.lookupAL, hk] at h
        simp [Json.lookupAL, hk, ih h]

theorem list_get?_set_self {l : List Json} {i : Nat} (a : Json)
    (h : i < l.length) : (l.set i a).get? i = some a := by
  induction l generalizing i with
  | nil => simp at h
  | cons x rest ih =>
      cases i with
      | zero => simp
      | succ n =>
          simp at h ⊢
          simpa using ih h

/-- C4 counterexample: `patch_mut` with `value = None` on a path ending in
an array INDEX is not idempotent — each application removes the element at
that index and shifts the rest down.  On `[1, 2]` with path `0`: one
application yields `[2]`, two applications yield `[]`. -/
theorem C4_counterexample :
    patch_mut (Json.arr [Json.num 1, Json.num 2]) (tokenizeT "0") none =
      Except.ok (Json.arr [Json.num 2]) ∧
    patch_mut (Json.arr [Json.num 2]) (tokenizeT "0") none =
      Except.ok (Json.arr []) ∧
    Json.arr ([] : List Json) ≠ Json.arr [Json.num 2] := by
  have ht : tokenizeT "0" = [DotToken.index 0] := by rfl
  refine ⟨?_, ?_, by simp⟩ <;> simp [ht, patch_mut, List.eraseIdx]

/-- Unfolding: terminal property set. -/
theorem patch_mut_prop_set (fields : List (String × Json)) (prop : String)
    (w : Json) :
    patch_mut (Json.obj fields) [DotToken.property prop] (some w) =
      Except.ok (Json.obj (Json.insertAL fields prop w)) := by
  simp [patch_mut]

/-- Unfolding: terminal property removal. -/
theorem patch_mut_prop_remove (fields : List (String × Json)) (prop : String) :
    patch_mut (Json.obj fields) [DotToken.property prop] none =
      Except.ok (Json.obj (Json.removeAL fields prop)) := by
  simp [patch_mut]

/-- Unfolding: descend through an existing property. -/
theorem patch_mut_prop_found {fields : List (String × Json)} {prop : String}
    {rest : List DotToken} {v : Option Json} {c : Json} (hrest : rest ≠ [])
    (hl : Json.lookupAL fields prop = some c) :
    patch_mut (Json.obj fields) (DotToken.property prop :: rest) v =
      (patch_mut c rest v).map
        (fun c' => Json.obj (Json.insertAL fields prop c')) := by
  rw [patch_mut.eq_def]
  simp [hrest]
  split <;> simp_all

/-- Unfolding: descend through a missing property (auto-created as an
empty object). -/
theorem patch_mut_prop_missing {fields : List (String × Json)} {prop : String}
    {rest : List DotToken} {v : Option Json} (hrest : rest ≠ [])
    (hl : Json.lookupAL fields prop = none) :
    patch_mut (Json.obj fields) (DotToken.property prop :: rest) v =
      (patch_mut (Json.obj []) rest v).map
        (fun c' =>
          Json.obj (Json.insertAL (fields ++ [(prop, Json.obj [])]) prop c')) := by
  rw [patch_mut.eq_def]
  simp [hrest]
  split <;> simp_all

/-- Unfolding: terminal index set (with null-fill resize). -/
theorem patch_mut_index_set (elems : List Json) (i : Nat) (w : Json) :
    patch_mut (Json.arr elems) [DotToken.index i] (some w) =
      Except.ok
        (Json.arr
          ((if elems.length ≤ i then
              elems ++ List.replicate (i + 1 - elems.length) Json.null
            else elems).set i w)) := by
  simp only [patch_mut]
  split <;> simp_all

/-- Unfolding: terminal index removal. -/
theorem patch_mut_index_remove (elems : List Json) (i : Nat) :
    patch_mut (Json.arr elems) [DotToken.index i] none =
      Except.ok (Json.arr (if i < elems.length then elems.eraseIdx i else elems)) := by
  simp [patch_mut]

/-- Unfolding: descend through an existing index. -/
theorem patch_mut_index_found {elems : List Json} {i : Nat}
    {rest : List DotToken} {v : Option Json} {c : Json} (hrest : rest ≠ [])
    (hg : elems.get? i = some c) :
    patch_mut (Json.arr elems) (DotToken.index i :: rest) v =
      (patch_mut c rest v).map (fun c' => Json.arr (elems.set i c')) := by
  rw [patch_mut.eq_def]
  simp [hrest]
  split <;> simp_all

/-- Unfolding: descend through a missing index is an error. -/
theorem patch_mut_index_missing {elems : List Json} {i : Nat}
    {rest : List DotToken} {v : Option Json} (hrest : rest ≠ [])
    (hg : elems.get? i = none) :
    patch_mut (Json.arr elems) (DotToken.index i :: rest) v =
      Except.error (ParseErr.json "index not found at path") := by
  rw [patch_mut.eq_def]
  simp [hrest]
  split <;> simp_all [List.getElem?_eq_none]

/-- `getLast?` ignores the head for a non-empty tail. -/
theorem getLast?_cons_of_ne_nil {t : DotToken} {rest : List DotToken}
    (h : rest ≠ []) : (t :: rest).getLast? = rest.getLast? := by
  cases rest with
  | nil => exact absurd rfl h
  | cons r rs => exact List.getLast?_cons_cons

/-- C4 amended: on a wildcard-free path, patching is idempotent whenever
the value is `Some` (set/replace), or the value is `None` and the path
ends in a PROPERTY token (map removal); removal at a terminal array index
is the one non-idempotent case (each application removes an element). -/
theorem C4_amended (toks : List DotToken) :
    ∀ (d d' : Json) (v : Option Json),
    (∀ t ∈ toks, ∀ w, t ≠ DotToken.wildcard w) →
    ((∃ w, v = some w) ∨ (∃ p, toks.getLast? = some (DotToken.property p))) →
    patch_mut d toks v = Except.ok d' →
    patch_mut d' toks v = Except.ok d' := by
  induction toks with
  | nil =>
      intro d d' v _ _ hp
      simp [patch_mut] at hp
  | cons t rest ih =>
      intro d d' v hw hv hp
      have hwrest : ∀ t ∈ rest, ∀ w, t ≠ DotToken.wildcard w :=
        fun x hx => hw x (List.mem_cons_of_mem t hx)
      have hvrest : rest ≠ [] → ((∃ w, v = some w) ∨
          (∃ p, rest.getLast? = some (DotToken.property p))) := by
        intro hne
        rcases hv with hvs | ⟨p, hpl⟩
        · exact Or.inl hvs
        · rw [getLast?_cons_of_ne_nil hne] at hpl
          exact Or.inr ⟨p, hpl⟩
      cases t with
      | wildcard w =>
          exact absurd rfl (hw (DotToken.wildcard w) (List.mem_cons_self _ _) w)
      | property prop =>
          cases d with
          | obj fields =>
              by_cases hrest : rest = []
              · subst hrest
                cases v with
                | some w =>
                    rw [patch_mut_prop_set] at hp
                    simp at hp
                    subst hp
                    rw [patch_mut_prop_set]
                    simp [Json.insertAL_idem]
                | none =>
                    rw [patch_mut_prop_remove] at hp
                    simp at hp
                    subst hp
                    rw [patch_mut_prop_remove]
                    simp [Json.removeAL_idem]
              · cases hl : Json.lookupAL fields prop with
                | some c =>
                    rw [patch_mut_prop_found hrest hl] at hp
                    obtain ⟨c', hc', hd'⟩ := exceptMap_ok hp
                    have hIH := ih c c' v hwrest (hvrest hrest) hc'
                    subst hd'
                    rw [patch_mut_prop_found hrest
                      (Json.lookup_insertAL_self fields prop c'), hIH]
                    simp [Except.map, Json.insertAL_idem]
                | none =>
                    rw [patch_mut_prop_missing hrest hl] at hp
                    obtain ⟨c', hc', hd'⟩ := exceptMap_ok hp
                    have hIH := ih (Json.obj []) c' v hwrest (hvrest hrest) hc'
                    rw [Json.insertAL_append_self _ _ hl] at hd'
                    subst hd'
                    rw [patch_mut_prop_found hrest
                      (Json.lookup_append_self _ hl), hIH]
                    simp [Except.map, Json.insertAL_append_self _ _ hl]
          | null => simp [patch_mut] at hp
          | bool b => simp [patch_mut] at hp
          | num n => simp [patch_mut] at hp
          | str ss => simp [patch_mut] at hp
          | arr elems => simp [patch_mut] at hp
      | index i =>
          cases d with
          | arr elems =>
              by_cases hrest : rest = []
              · subst hrest
                cases v with
                | some w =>
                    rw [patch_mut_index_set] at hp
                    simp at hp
                    subst hp
                    rw [patch_mut_index_set]
                    by_cases hlen : elems.length ≤ i
                    · rw [if_pos hlen]
                      have hlen2 :
                          ¬((elems ++
                            List.replicate (i + 1 - elems.length) Json.null).set
                              i w).length ≤ i := by
                        simp
                        omega
                      rw [if_neg hlen2]
                      simp [List.set_set]
                    · rw [if_neg hlen]
                      have hlen2 : ¬(elems.set i w).length ≤ i := by
                        simp
                        omega
                      rw [if_neg hlen2]
                      simp [List.set_set]
                | none =>
                    exfalso
                    rcases hv with ⟨w, hw'⟩ | ⟨p, hpl⟩
                    · simp at hw'
                    · simp at hpl
              · cases hg : elems.get? i with
                | some c =>
                    have hilen : i < elems.length :=
                      (List.getElem?_eq_some_iff.mp (by simpa using hg)).1
                    rw [patch_mut_index_found hrest hg] at hp
                    obtain ⟨c', hc', hd'⟩ := exceptMap_ok hp
                    have hIH := ih c c' v hwrest (hvrest hrest) hc'
                    subst hd'
                    rw [patch_mut_index_found hrest
                      (list_get?_set_self c' hilen), hIH]
                    simp [Except.map, List.set_set]
                | none =>
                    rw [patch_mut_index_missing hrest hg] at hp
                    simp at hp
          | null => simp [patch_mut] at hp
          | bool b => simp [patch_mut] at hp
          | num n => simp [patch_mut] at hp
          | str ss => simp [patch_mut] at hp
          | obj fields => simp [patch_mut] at hp

/-- C4 amended, witness: setting `a` to `1` twice equals setting it
once. -/
theorem C4_amended_witness :
    patch_mut (Json.obj [("a", Json.num 1)]) (tokenizeT "a")
      (some (Json.num 1)) = Except.ok (Json.obj [("a", Json.num 1)]) :=
  C4_amended (tokenizeT "a") (Json.obj []) (Json.obj [("a", Json.num 1)])
    (some (Json.num 1))
    (by
      intro t ht w
      have heq : t = DotToken.property "a" := by
        have h : tokenizeT "a" = [DotToken.property "a"] := by rfl
        rw [h] at ht
        simpa using ht
      simp [heq])
    (Or.inl ⟨Json.num 1, rfl⟩)
    (by
      have ht : tokenizeT "a" = [DotToken.property "a"] := by rfl
      rw [ht, patch_mut_prop_set]
      rfl)

/-! ### Sorting theory for C8: the two comparators of sort_enum_variants
are transitive and total on the non-strict relation, so List.mergeSort
yields a sorted permutation, and stability appears as preservation of the
filter on any comparator-equal class. -/

theorem cmpChar_lt_iff {a b : Char} : cmpChar a b = Ordering.lt ↔ a.toNat < b.toNat := by
  unfold cmpChar
  split
  · simp; omega
  · split <;> simp <;> omega

theorem cmpChar_gt_iff {a b : Char} : cmpChar a b = Ordering.gt ↔ b.toNat < a.toNat := by
  unfold cmpChar
  split
  · simp; omega
  · split <;> simp <;> omega

theorem cmpChar_eq_iff {a b : Char} : cmpChar a b = Ordering.eq ↔ a.toNat = b.toNat := by
  unfold cmpChar
  split
  · simp; omega
  · split <;> simp <;> omega

theorem cmpCharList_swap (a b : List Char) : cmpCharList b a = (cmpCharList a b).swap := by
  induction a generalizing b with
  | nil => cases b <;> rfl
  | cons x xs ih =>
    cases b with
    | nil => rfl
    | cons y ys =>
      simp only [cmpCharList]
      cases h : cmpChar x y with
      | lt =>
        have h2 : cmpChar y x = Ordering.gt := by
          rw [cmpChar_gt_iff]; exact cmpChar_lt_iff.mp h
        rw [h2]; rfl
      | eq =>
        have h2 : cmpChar y x = Ordering.eq := by
          rw [cmpChar_eq_iff]; exact (cmpChar_eq_iff.mp h).symm
        rw [h2]; exact ih ys
      | gt =>
        have h2 : cmpChar y x = Ordering.lt := by
          rw [cmpChar_lt_iff]; exact cmpChar_gt_iff.mp h
        rw [h2]; rfl

theorem cmpCharList_le_trans (a b c : List Char)
    (h1 : cmpCharList a b ≠ Ordering.gt) (h2 : cmpCharList b c ≠ Ordering.gt) :
    cmpCharList a c ≠ Ordering.gt := by
  induction a generalizing b c with
  | nil => cases c <;> simp [cmpCharList]
  | cons x xs ih =>
    cases b with
    | nil => exact absurd rfl h1
    | cons y ys =>
      cases c with
      | nil => exact absurd rfl h2
      | cons z zs =>
        simp only [cmpCharList] at h1 h2 ⊢
        cases hxy : cmpChar x y <;> rw [hxy] at h1 <;>
          cases hyz : cmpChar y z <;> rw [hyz] at h2
        · have hxz : cmpChar x z = Ordering.lt := by
            rw [cmpChar_lt_iff]
            have u := cmpChar_lt_iff.mp hxy
            have v := cmpChar_lt_iff.mp hyz
            omega
          rw [hxz]; simp
        · have hxz : cmpChar x z = Ordering.lt := by
            rw [cmpChar_lt_iff]
            have u := cmpChar_lt_iff.mp hxy
            have v := cmpChar_eq_iff.mp hyz
            omega
          rw [hxz]; simp
        · exact absurd rfl h2
        · have hxz : cmpChar x z = Ordering.lt := by
            rw [cmpChar_lt_iff]
            have u := cmpChar_eq_iff.mp hxy
            have v := cmpChar_lt_iff.mp hyz
            omega
          rw [hxz]; simp
        · have hxz : cmpChar x z = Ordering.eq := by
            rw [cmpChar_eq_iff]
            have u := cmpChar_eq_iff.mp hxy
            have v := cmpChar_eq_iff.mp hyz
            omega
          rw [hxz]
          exact ih ys zs h1 h2
        · exact absurd rfl h2
        · exact absurd rfl h1
        · exact absurd rfl h1
        · exact absurd rfl h1

theorem cmpStr_swap (a b : String) : cmpStr b a = (cmpStr a b).swap :=
  cmpCharList_swap a.data b.data

theorem cmpStr_le_trans (a b c : String)
    (h1 : cmpStr a b ≠ Ordering.gt) (h2 : cmpStr b c ≠ Ordering.gt) :
    cmpStr a c ≠ Ordering.gt :=
  cmpCharList_le_trans a.data b.data c.data h1 h2

theorem cmpOptStr_swap (a b : Option String) : cmpOptStr b a = (cmpOptStr a b).swap := by
  cases a with
  | none => cases b <;> rfl
  | some x =>
    cases b with
    | none => rfl
    | some y => exact cmpStr_swap x y

theorem cmpOptStr_le_trans (a b c : Option String)
    (h1 : cmpOptStr a b ≠ Ordering.gt) (h2 : cmpOptStr b c ≠ Ordering.gt) :
    cmpOptStr a c ≠ Ordering.gt := by
  cases a <;> cases b <;> cases c <;> simp_all [cmpOptStr]
  exact cmpStr_le_trans _ _ _ h1 h2

theorem enumKeyCmp_eq_rank (a b : EnumKey) :
    enumKeyCmp a b =
      (if keyRank a < keyRank b then Ordering.lt
       else if keyRank b < keyRank a then Ordering.gt
       else cmpStr (keyStr a) (keyStr b)) := by
  cases a <;> cases b <;>
    first
      | rfl
      | (rename_i p q; cases p <;> cases q <;> decide)
      | simp [enumKeyCmp, keyRank, keyStr]

theorem enumKeyCmp_swap (a b : EnumKey) : enumKeyCmp b a = (enumKeyCmp a b).swap := by
  rw [enumKeyCmp_eq_rank, enumKeyCmp_eq_rank]
  rcases Nat.lt_trichotomy (keyRank a) (keyRank b) with h | h | h
  · rw [if_neg (by omega), if_pos h, if_pos h]; rfl
  · rw [if_neg (by omega), if_neg (by omega), if_neg (by omega), if_neg (by omega),
      cmpStr_swap]
  · rw [if_pos h, if_neg (by omega), if_pos h]; rfl

theorem enumKeyCmp_le_trans (a b c : EnumKey)
    (h1 : enumKeyCmp a b ≠ Ordering.gt) (h2 : enumKeyCmp b c ≠ Ordering.gt) :
    enumKeyCmp a c ≠ Ordering.gt := by
  rw [enumKeyCmp_eq_rank] at h1 h2 ⊢
  split_ifs at h1 h2 ⊢ <;>
    first
      | omega
      | (exact cmpStr_le_trans _ _ _ h1 h2)
      | simp_all

theorem rust_sort_by_perm {α : Type} (cmp : α → α → Ordering) (l : List α) :
    (rust_sort_by cmp l).Perm l :=
  List.mergeSort_perm l _

theorem bne_gt_true_iff (a : Ordering) :
    (a != Ordering.gt) = true ↔ a ≠ Ordering.gt := by
  cases a <;> decide

theorem rust_sort_by_pairwise {α : Type} (cmp : α → α → Ordering)
    (htrans : ∀ a b c, cmp a b ≠ Ordering.gt → cmp b c ≠ Ordering.gt →
      cmp a c ≠ Ordering.gt)
    (hswap : ∀ a b, cmp b a = (cmp a b).swap) (l : List α) :
    (rust_sort_by cmp l).Pairwise (fun a b => cmp a b ≠ Ordering.gt) := by
  have ht : ∀ a b c : α, (cmp a b != Ordering.gt) = true →
      (cmp b c != Ordering.gt) = true → (cmp a c != Ordering.gt) = true := by
    intro a b c hab hbc
    rw [bne_gt_true_iff] at hab hbc ⊢
    exact htrans a b c hab hbc
  have hto : ∀ a b : α,
      ((cmp a b != Ordering.gt) || (cmp b a != Ordering.gt)) = true := by
    intro a b
    rw [Bool.or_eq_true, bne_gt_true_iff, bne_gt_true_iff]
    by_cases h : cmp a b = Ordering.gt
    · right; rw [hswap, h]; decide
    · left; exact h
  have hs := List.sorted_mergeSort ht hto l
  exact hs.imp (fun h => (bne_gt_true_iff _).mp h)

theorem rust_sort_by_filter {α : Type} (cmp : α → α → Ordering)
    (htrans : ∀ a b c, cmp a b ≠ Ordering.gt → cmp b c ≠ Ordering.gt →
      cmp a c ≠ Ordering.gt)
    (hswap : ∀ a b, cmp b a = (cmp a b).swap) (l : List α) (p : α → Bool)
    (hp : ∀ a b, p a → p b → cmp a b = Ordering.eq) :
    (rust_sort_by cmp l).filter p = l.filter p := by
  have ht : ∀ a b c : α, (cmp a b != Ordering.gt) = true →
      (cmp b c != Ordering.gt) = true → (cmp a c != Ordering.gt) = true := by
    intro a b c hab hbc
    rw [bne_gt_true_iff] at hab hbc ⊢
    exact htrans a b c hab hbc
  have hto : ∀ a b : α,
      ((cmp a b != Ordering.gt) || (cmp b a != Ordering.gt)) = true := by
    intro a b
    rw [Bool.or_eq_true, bne_gt_true_iff, bne_gt_true_iff]
    by_cases h : cmp a b = Ordering.gt
    · right; rw [hswap, h]; decide
    · left; exact h
  have hsub : (l.filter p).Sublist (rust_sort_by cmp l) := by
    apply List.sublist_mergeSort ht hto
    · apply List.pairwise_of_forall_mem_list
      intro a ha b hb
      have hpa := (List.mem_filter.mp ha).2
      have hpb := (List.mem_filter.mp hb).2
      rw [bne_gt_true_iff, hp a b hpa hpb]
      simp
    · exact List.filter_sublist l
  have hsub2 : (l.filter p).Sublist ((rust_sort_by cmp l).filter p) := by
    have hh := List.Sublist.filter p hsub
    rwa [List.filter_eq_self.mpr (fun a ha => (List.mem_filter.mp ha).2)] at hh
  have hlen : ((rust_sort_by cmp l).filter p).length = (l.filter p).length :=
    ((rust_sort_by_perm cmp l).filter p).length_eq
  exact (hsub2.eq_of_length hlen.symm).symm

/-- C8 counterexample: both keys present, so the list is sorted by key;
but the keys `10` and `9` (kind Number) compare by their DECIMAL STRINGS
(`"10" < "9"`), so `10` stays in front of `9` even though `9 < 10` as a
value — same-kind Number keys are NOT compared by their values. -/
theorem C8_counterexample :
    sort_enum_variants [exVarTen, exVarNine] = [exVarTen, exVarNine] ∧
    exVarTen.key = EnumKey.number 10 ∧ exVarNine.key = EnumKey.number 9 ∧
    ¬ ((10 : Int) ≤ 9) := by
  refine ⟨?_, rfl, rfl, by decide⟩
  have hcmp : enumKeyCmp (EnumKey.number 10) (EnumKey.number 9) = Ordering.lt := by
    decide
  simp [sort_enum_variants, rust_sort_by, exVarTen, exVarNine, List.mergeSort,
    List.merge, hcmp]
  rfl

/-- C8 amended: `sort_enum_variants` returns a permutation of its input;
if any variant's key is `EnumKey::None` the result is sorted by display
name (and `cmpOptStr` puts missing names first, never `Greater` against
anything), otherwise it is sorted by key; ties (comparator-equal classes)
keep their original order in both branches (the filter on any
comparator-equal class is unchanged); the cross-kind key order is
`None < Bool < Number < String` (by `keyRank`), but same-kind `Number`
keys compare by their DECIMAL STRING, not by their numeric value. -/
theorem C8_amended (variants : List EnumVariant) :
    (sort_enum_variants variants).Perm variants ∧
    (if variants.any (fun v => v.key = EnumKey.none) then
        (sort_enum_variants variants).Pairwise
          (fun a b => cmpOptStr a.name b.name ≠ Ordering.gt) ∧
        ∀ p : EnumVariant → Bool,
          (∀ a b, p a = true → p b = true → cmpOptStr a.name b.name = Ordering.eq) →
          (sort_enum_variants variants).filter p = variants.filter p
      else
        (sort_enum_variants variants).Pairwise
          (fun a b => enumKeyCmp a.key b.key ≠ Ordering.gt) ∧
        ∀ p : EnumVariant → Bool,
          (∀ a b, p a = true → p b = true → enumKeyCmp a.key b.key = Ordering.eq) →
          (sort_enum_variants variants).filter p = variants.filter p) ∧
    (∀ s : Option String, cmpOptStr Option.none s ≠ Ordering.gt) ∧
    (∀ a b : EnumKey, keyRank a < keyRank b → enumKeyCmp a b = Ordering.lt) ∧
    (∀ m n : Int, enumKeyCmp (EnumKey.number m) (EnumKey.number n) =
      cmpStr (toString m) (toString n)) := by
  refine ⟨?_, ?_, ?_, ?_, fun m n => rfl⟩
  · unfold sort_enum_variants
    split
    · exact rust_sort_by_perm _ _
    · exact rust_sort_by_perm _ _
  · split
    · rename_i h
      have he : sort_enum_variants variants =
          rust_sort_by (fun a b => cmpOptStr a.name b.name) variants := by
        rw [sort_enum_variants, if_pos h]
      constructor
      · rw [he]
        exact rust_sort_by_pairwise _
          (fun a b c hab hbc => cmpOptStr_le_trans a.name b.name c.name hab hbc)
          (fun a b => cmpOptStr_swap a.name b.name) variants
      · intro p hp
        rw [he]
        exact rust_sort_by_filter _
          (fun a b c hab hbc => cmpOptStr_le_trans a.name b.name c.name hab hbc)
          (fun a b => cmpOptStr_swap a.name b.name) variants p hp
    · rename_i h
      have he : sort_enum_variants variants =
          rust_sort_by (fun a b => enumKeyCmp a.key b.key) variants := by
        rw [sort_enum_variants, if_neg h]
      constructor
      · rw [he]
        exact rust_sort_by_pairwise _
          (fun a b c hab hbc => enumKeyCmp_le_trans a.key b.key c.key hab hbc)
          (fun a b => enumKeyCmp_swap a.key b.key) variants
      · intro p hp
        rw [he]
        exact rust_sort_by_filter _
          (fun a b c hab hbc => enumKeyCmp_le_trans a.key b.key c.key hab hbc)
          (fun a b => enumKeyCmp_swap a.key b.key) variants p hp
  · intro s; cases s <;> simp [cmpOptStr]
  · intro a b h
    rw [enumKeyCmp_eq_rank, if_pos h]

/-- C8 amended, witness: on the concrete two-variant list with keys `10`
and `9`, the key-branch sort is a permutation, and the filter on the class
of key `10` is preserved. -/
theorem C8_amended_witness :
    (sort_enum_variants [exVarTen, exVarNine]).Perm [exVarTen, exVarNine] ∧
    (sort_enum_variants [exVarTen, exVarNine]).filter
        (fun v => v.key = EnumKey.number 10) = [exVarTen] := by
  have h := C8_amended [exVarTen, exVarNine]
  refine ⟨h.1, ?_⟩
  have h2 := h.2.1
  rw [if_neg (by decide)] at h2
  have h3 := h2.2 (fun v => v.key = EnumKey.number 10)
    (fun a b ha hb => by
      have ha2 := of_decide_eq_true ha
      have hb2 := of_decide_eq_true hb
      rw [ha2, hb2]; decide)
  rw [h3]
  decide
